import Mathlib

/-!
Verification development for the template-finalizer and decoder-state core of a
FAST-style streaming message decoder (source files: src/common/definitions.rs and
src/decoder/state.rs).  The Rust data model and functions are shallowly embedded:
interior mutability (Cell) becomes explicit value threading, fallible functions
return Except, and Rust panics are modelled as a distinguished error constructor.
-/

namespace Fast

/-- Field presence attribute (src: base/types.rs Presence, used throughout). -/
inductive Presence where
  | mandatory
  | optional
deriving DecidableEq, Repr

/-- Field operator (src: base/types.rs Operator). -/
inductive Operator where
  | none
  | constant
  | default
  | copy
  | increment
  | delta
  | tail
deriving DecidableEq, Repr

/-- Value type of an instruction (src: base/value.rs ValueType). -/
inductive ValueType where
  | int32
  | uInt32
  | int64
  | uInt64
  | decimal
  | asciiString
  | unicodeString
  | byteVector
  | group
  | sequence
  | templateReference
deriving DecidableEq, Repr

/-- Dictionary scope (src: base/types.rs Dictionary). -/
inductive Dictionary where
  | inherit
  | global
  | template
  | type_
  | userDefined (name : String)
deriving DecidableEq, Repr

/-- Application type reference (src: base/types.rs TypeRef). -/
inductive TypeRef where
  | any
  | applicationType (name : String)
deriving DecidableEq, Repr

/-- Decoded values (src: base/value.rs Value); only the ground alternatives. -/
inductive Value where
  | uInt32 (v : Nat)
  | int32 (v : Int)
  | uInt64 (v : Nat)
  | int64 (v : Int)
  | decimal (exponent : Int) (mantissa : Int)
  | asciiString (s : String)
  | unicodeString (s : String)
  | byteVector (b : List Nat)
deriving DecidableEq, Repr

/-- Finalization errors.  `static` embeds Error::Static (a schema error value
returned to the caller); `panics` marks a Rust panic (index out of range,
unwrap on None), which is not a returned error value. -/
inductive FinErr where
  | static (msg : String)
  | panics (msg : String)
deriving DecidableEq, Repr

/-- Instruction tree node (src: base/instruction.rs Instruction).  The Rust
field `has_pmap : Cell<bool>` is modelled as `Option Bool`: `Option.none` is the
initial (never written) cell, `some b` a cell written with `b` by the finalizer;
reads of the cell during decoding use `getD false`. -/
inductive Instruction where
  | mk (id : Nat) (name : String) (value_type : ValueType) (presence : Presence)
       (operator : Operator) (initial_value : Option Value)
       (instructions : List Instruction) (dictionary : Dictionary)
       (key : String) (type_ref : TypeRef) (has_pmap : Option Bool)

def Instruction.id : Instruction → Nat
  | .mk i _ _ _ _ _ _ _ _ _ _ => i

def Instruction.name : Instruction → String
  | .mk _ n _ _ _ _ _ _ _ _ _ => n

def Instruction.value_type : Instruction → ValueType
  | .mk _ _ vt _ _ _ _ _ _ _ _ => vt

def Instruction.presence : Instruction → Presence
  | .mk _ _ _ pr _ _ _ _ _ _ _ => pr

def Instruction.operator : Instruction → Operator
  | .mk _ _ _ _ op _ _ _ _ _ _ => op

def Instruction.initial_value : Instruction → Option Value
  | .mk _ _ _ _ _ iv _ _ _ _ _ => iv

def Instruction.instructions : Instruction → List Instruction
  | .mk _ _ _ _ _ _ is _ _ _ _ => is

def Instruction.dictionary : Instruction → Dictionary
  | .mk _ _ _ _ _ _ _ d _ _ _ => d

def Instruction.key : Instruction → String
  | .mk _ _ _ _ _ _ _ _ k _ _ => k

def Instruction.type_ref : Instruction → TypeRef
  | .mk _ _ _ _ _ _ _ _ _ tr _ => tr

def Instruction.has_pmap : Instruction → Option Bool
  | .mk _ _ _ _ _ _ _ _ _ _ hp => hp

/-- src: base/instruction.rs Instruction::is_optional (not under src/; modelled
from the spec: presence attribute is Optional). -/
def Instruction.is_optional (i : Instruction) : Bool :=
  i.presence = .optional

/-- Replace the first child (used to thread the Cell mutation that Rust performs
through the shared head node of a sequence). -/
def Instruction.replaceHead : Instruction → Instruction → Instruction
  | .mk i n vt pr op iv is d k tr hp, h =>
    .mk i n vt pr op iv (h :: is.tail) d k tr hp

/-- Template (src: base/types.rs Template).  `require_pmap : Cell<Option<bool>>`
is modelled directly as `Option Bool`. -/
structure Template where
  id : Nat
  name : String
  dictionary : Dictionary
  type_ref : TypeRef
  instructions : List Instruction
  require_pmap : Option Bool

/-- templates_by_name lookup: Rust inserts every template with a non-empty name
into a HashMap in declaration order, so a later template with the same name
overwrites an earlier one; get returns the last inserted. -/
def templates_by_name (ts : List Template) (name : String) : Option Template :=
  ts.reverse.find? (fun t => t.name == name && !(t.name == ""))

/-- templates_by_id lookup: Rust inserts every template with id not 0; last
insert wins. -/
def templates_by_id (ts : List Template) (n : Nat) : Option Template :=
  ts.reverse.find? (fun t => t.id == n && !(t.id == 0))

/-- Scalar-operator presence-bit rule: the trailing operator match of
has_presence_map_bit (src/common/definitions.rs lines 161-171). -/
def operator_bit (i : Instruction) : Bool :=
  match i.operator with
  | .none => false
  | .delta => false
  | .default => true
  | .copy => true
  | .increment => true
  | .tail => true
  | .constant => i.is_optional

mutual

/-- src/common/definitions.rs Definitions::require_presence_map_bit.  Iterates
all instructions with no early exit, OR-ing the per-instruction bit; the
updated instructions (their has_pmap cells written) are returned alongside. -/
def require_presence_map_bit (ctx : List Template) :
    List Instruction → Except FinErr (Bool × List Instruction)
  | [] => .ok (false, [])
  | i :: rest =>
    match has_presence_map_bit ctx i with
    | .error e => .error e
    | .ok (b, i2) =>
      match require_presence_map_bit ctx rest with
      | .error e => .error e
      | .ok (bs, rest2) => .ok (b || bs, i2 :: rest2)
termination_by l => (sizeOf l, 0)
decreasing_by all_goals (simp_wf; omega)

/-- src/common/definitions.rs Definitions::set_has_pmap.  For Sequence the Rust
code slices `instructions[1..]`, which panics when the child list is empty
(range start 1 out of range); the guarded length-field error in
has_presence_map_bit is therefore unreachable.  The single Rust match is split
into one arm per value_type so that each case yields a plain equation. -/
def set_has_pmap (ctx : List Template) : Instruction → Except FinErr Instruction
  | .mk i n .group pr op iv children d k tr _ =>
    match require_presence_map_bit ctx children with
    | .error e => .error e
    | .ok (b, children2) => .ok (.mk i n .group pr op iv children2 d k tr (some b))
  | .mk i n .templateReference pr op iv children d k tr _ =>
    match require_presence_map_bit ctx children with
    | .error e => .error e
    | .ok (b, children2) => .ok (.mk i n .templateReference pr op iv children2 d k tr (some b))
  | .mk i n .decimal pr op iv children d k tr _ =>
    match require_presence_map_bit ctx children with
    | .error e => .error e
    | .ok (b, children2) => .ok (.mk i n .decimal pr op iv children2 d k tr (some b))
  | .mk _ _ .sequence _ _ _ [] _ _ _ _ =>
    .error (.panics ("range start index 1 out of range for slice of length 0"))
  | .mk i n .sequence pr op iv (h :: t) d k tr _ =>
    match require_presence_map_bit ctx t with
    | .error e => .error e
    | .ok (b, t2) => .ok (.mk i n .sequence pr op iv (h :: t2) d k tr (some b))
  | .mk i n .int32 pr op iv children d k tr hp =>
    .ok (.mk i n .int32 pr op iv children d k tr hp)
  | .mk i n .uInt32 pr op iv children d k tr hp =>
    .ok (.mk i n .uInt32 pr op iv children d k tr hp)
  | .mk i n .int64 pr op iv children d k tr hp =>
    .ok (.mk i n .int64 pr op iv children d k tr hp)
  | .mk i n .uInt64 pr op iv children d k tr hp =>
    .ok (.mk i n .uInt64 pr op iv children d k tr hp)
  | .mk i n .asciiString pr op iv children d k tr hp =>
    .ok (.mk i n .asciiString pr op iv children d k tr hp)
  | .mk i n .unicodeString pr op iv children d k tr hp =>
    .ok (.mk i n .unicodeString pr op iv children d k tr hp)
  | .mk i n .byteVector pr op iv children d k tr hp =>
    .ok (.mk i n .byteVector pr op iv children d k tr hp)
termination_by i => (sizeOf i, 0)
decreasing_by all_goals (simp_wf; omega)

/-- src/common/definitions.rs Definitions::has_presence_map_bit.  First runs
set_has_pmap, then the per-value_type decision; the scalar fall-through is
`operator_bit`.  Again one arm per value_type of the Rust match. -/
def has_presence_map_bit (ctx : List Template) :
    Instruction → Except FinErr (Bool × Instruction)
  | .mk i n .group pr op iv children d k tr hp =>
    match set_has_pmap ctx (.mk i n .group pr op iv children d k tr hp) with
    | .error e => .error e
    | .ok inst2 => .ok (inst2.is_optional, inst2)
  | .mk i n .sequence pr op iv [] d k tr hp =>
    match set_has_pmap ctx (.mk i n .sequence pr op iv [] d k tr hp) with
    | .error e => .error e
    | .ok _ => .error (.static ("sequence " ++ n ++ " has no length field"))
  | .mk i n .sequence pr op iv (h :: t) d k tr hp =>
    match set_has_pmap ctx (.mk i n .sequence pr op iv (h :: t) d k tr hp) with
    | .error e => .error e
    | .ok inst2 =>
      match has_presence_map_bit ctx h with
      | .error e => .error e
      | .ok (b, h2) => .ok (b, inst2.replaceHead h2)
  | .mk i n .templateReference pr op iv children d k tr hp =>
    match set_has_pmap ctx (.mk i n .templateReference pr op iv children d k tr hp) with
    | .error e => .error e
    | .ok inst2 =>
      if !(n == "") then
        match templates_by_name ctx n with
        | Option.none => .error (.static ("template " ++ n ++ " not found"))
        | some t =>
          match t.require_pmap with
          | Option.none =>
            .error (.static ("template " ++ n ++ " not initialized yet; consider reordering templates"))
          | some b => .ok (b, inst2)
      else
        .ok (false, inst2)
  | .mk i n .decimal pr op iv children d k tr hp =>
    match set_has_pmap ctx (.mk i n .decimal pr op iv children d k tr hp) with
    | .error e => .error e
    | .ok inst2 =>
      if inst2.has_pmap.getD false then
        .ok (true, inst2)
      else
        .ok (operator_bit inst2, inst2)
  | .mk i n .int32 pr op iv children d k tr hp =>
    match set_has_pmap ctx (.mk i n .int32 pr op iv children d k tr hp) with
    | .error e => .error e
    | .ok inst2 => .ok (operator_bit inst2, inst2)
  | .mk i n .uInt32 pr op iv children d k tr hp =>
    match set_has_pmap ctx (.mk i n .uInt32 pr op iv children d k tr hp) with
    | .error e => .error e
    | .ok inst2 => .ok (operator_bit inst2, inst2)
  | .mk i n .int64 pr op iv children d k tr hp =>
    match set_has_pmap ctx (.mk i n .int64 pr op iv children d k tr hp) with
    | .error e => .error e
    | .ok inst2 => .ok (operator_bit inst2, inst2)
  | .mk i n .uInt64 pr op iv children d k tr hp =>
    match set_has_pmap ctx (.mk i n .uInt64 pr op iv children d k tr hp) with
    | .error e => .error e
    | .ok inst2 => .ok (operator_bit inst2, inst2)
  | .mk i n .asciiString pr op iv children d k tr hp =>
    match set_has_pmap ctx (.mk i n .asciiString pr op iv children d k tr hp) with
    | .error e => .error e
    | .ok inst2 => .ok (operator_bit inst2, inst2)
  | .mk i n .unicodeString pr op iv children d k tr hp =>
    match set_has_pmap ctx (.mk i n .unicodeString pr op iv children d k tr hp) with
    | .error e => .error e
    | .ok inst2 => .ok (operator_bit inst2, inst2)
  | .mk i n .byteVector pr op iv children d k tr hp =>
    match set_has_pmap ctx (.mk i n .byteVector pr op iv children d k tr hp) with
    | .error e => .error e
    | .ok inst2 => .ok (operator_bit inst2, inst2)
termination_by i => (sizeOf i, 1)
decreasing_by all_goals (simp_wf; omega)

end

/-- The synthetic template-id instruction built by new_from_templates
(src/common/definitions.rs lines 34-46).  Its Cell is initialized to false and
never written, which the Option model renders as `Option.none`. -/
def template_id_instruction : Instruction :=
  .mk 0 "__template_id__" .uInt32 .mandatory .copy Option.none [] .global
    "__template_id__" .any Option.none

/-- Finalized template store (src/common/definitions.rs Definitions).  The two
hash maps are recovered from `templates` by the lookup functions above, which
reproduces the Rust Rc aliasing: lookups always observe the current cells. -/
structure Definitions where
  templates : List Template
  tid_instruction : Instruction

/-- src/common/definitions.rs Definitions::finalize, unfolded into explicit
state passing: templates are processed in declaration order; while template t
is walked, lookups see the already-finalized prefix (done), t itself and the
suffix still unfinalized — exactly the Cell/Rc behavior of the Rust loop. -/
def finalize_aux (done : List Template) : List Template → Except FinErr (List Template)
  | [] => .ok done
  | t :: rest =>
    match require_presence_map_bit (done ++ t :: rest) t.instructions with
    | .error e => .error e
    | .ok (b, is2) =>
      finalize_aux (done ++ [{ t with instructions := is2, require_pmap := some b }]) rest

/-- src/common/definitions.rs Definitions::new_from_templates: build the store,
then finalize; any finalization failure is returned to the caller. -/
def new_from_templates (ts : List Template) : Except FinErr Definitions :=
  match finalize_aux [] ts with
  | .error e => .error e
  | .ok finalized =>
    .ok { templates := finalized, tid_instruction := template_id_instruction }

/-- Scalar (non-composite) value types: everything except Group, Sequence,
TemplateReference and Decimal reaches the trailing operator match directly. -/
def ValueType.isScalar : ValueType → Bool
  | .group => false
  | .sequence => false
  | .templateReference => false
  | .decimal => false
  | _ => true

/-- The operator truth-table of spec section 4.1, written from the words of the
spec (None and Delta: no bit; Default, Copy, Increment, Tail: a bit; Constant:
a bit exactly for Optional presence).  Used to compare against the code. -/
def contributes_bit_table (op : Operator) (pr : Presence) : Bool :=
  match op with
  | .none => false
  | .delta => false
  | .default => true
  | .copy => true
  | .increment => true
  | .tail => true
  | .constant => pr = .optional

mutual

/-- Every composite node (Group, Sequence, Decimal) of this instruction tree
has its has_pmap cell written (spec section 8, universal property 1). -/
def composites_finalized : Instruction → Bool
  | .mk _ _ vt _ _ _ children _ _ _ hp =>
    ((!(vt == .group || vt == .sequence || vt == .decimal)) || hp.isSome)
      && list_finalized children
termination_by i => sizeOf i
decreasing_by all_goals (simp_wf; try omega)

/-- List form of composites_finalized. -/
def list_finalized : List Instruction → Bool
  | [] => true
  | i :: rest => composites_finalized i && list_finalized rest
termination_by l => sizeOf l
decreasing_by all_goals (simp_wf; try omega)

end

mutual

/-- Data-model well-formedness (spec section 3): scalar instructions carry no
children; only Group, Sequence, Decimal and TemplateReference nodes may. -/
def wf_instr : Instruction → Bool
  | .mk _ _ vt _ _ _ children _ _ _ _ =>
    ((vt == .group || vt == .sequence || vt == .decimal || vt == .templateReference)
        || children.isEmpty)
      && wf_list children
termination_by i => sizeOf i
decreasing_by all_goals (simp_wf; try omega)

/-- List form of wf_instr. -/
def wf_list : List Instruction → Bool
  | [] => true
  | i :: rest => wf_instr i && wf_list rest
termination_by l => sizeOf l
decreasing_by all_goals (simp_wf; try omega)

end

/-- The finalizer walk writes the has_pmap cell of every composite it returns:
whenever has_presence_map_bit (or the list walk) succeeds on a well-formed
tree, every Group, Sequence and Decimal node of the RETURNED tree has its flag
set.  Proved by strong induction on the tree size, mirroring the mutual
recursion of the walk. -/
theorem fin_walk_finalizes (N : Nat) :
    (∀ (ctx : List Template) (i : Instruction) (b : Bool) (i2 : Instruction),
      sizeOf i ≤ N → wf_instr i = true → has_presence_map_bit ctx i = .ok (b, i2) →
      composites_finalized i2 = true) ∧
    (∀ (ctx : List Template) (l : List Instruction) (bs : Bool) (l2 : List Instruction),
      sizeOf l ≤ N → wf_list l = true → require_presence_map_bit ctx l = .ok (bs, l2) →
      list_finalized l2 = true) := by
  induction N using Nat.strong_induction_on with
  | _ N IH =>
    constructor
    · intro ctx i b i2 hsz hwf heq
      obtain ⟨id, n, vt, pr, op, iv, children, d, k, tr, hp⟩ := i
      have hszc : sizeOf children < N := by
        have := hsz
        simp only [Instruction.mk.sizeOf_spec] at this
        omega
      have hwfc : wf_list children = true := by
        simp only [wf_instr, Bool.and_eq_true] at hwf
        exact hwf.2
      cases vt
      -- scalar cases: children must be empty by well-formedness
      case int32 | uInt32 | int64 | uInt64 | asciiString | unicodeString | byteVector =>
        simp only [has_presence_map_bit, set_has_pmap] at heq
        simp only [wf_instr, Bool.and_eq_true, Bool.or_eq_true, List.isEmpty_iff] at hwf
        have hce : children = [] := by
          rcases hwf.1 with h | h
          · exact absurd h (by decide)
          · exact h
        subst hce
        simp only [Except.ok.injEq, Prod.mk.injEq] at heq
        rw [← heq.2]
        simp [composites_finalized, list_finalized]
      case group =>
        simp only [has_presence_map_bit, set_has_pmap] at heq
        rcases hreq : require_presence_map_bit ctx children with e | ⟨b2, children2⟩ <;>
          rw [hreq] at heq
        · simp at heq
        · simp only [Except.ok.injEq, Prod.mk.injEq] at heq
          have hfin := (IH (sizeOf children) hszc).2 ctx children b2 children2 le_rfl hwfc hreq
          rw [← heq.2]
          simp [composites_finalized, hfin]
      case decimal =>
        simp only [has_presence_map_bit, set_has_pmap] at heq
        rcases hreq : require_presence_map_bit ctx children with e | ⟨b2, children2⟩ <;>
          rw [hreq] at heq
        · simp at heq
        · have hfin := (IH (sizeOf children) hszc).2 ctx children b2 children2 le_rfl hwfc hreq
          cases b2 <;>
            simp only [Instruction.has_pmap, Option.getD_some, Bool.false_eq_true, if_false,
              if_true, ite_true, ite_false, Except.ok.injEq, Prod.mk.injEq] at heq <;>
            (rw [← heq.2]; simp [composites_finalized, hfin])
      case templateReference =>
        simp only [has_presence_map_bit, set_has_pmap] at heq
        rcases hreq : require_presence_map_bit ctx children with e | ⟨b2, children2⟩ <;>
          rw [hreq] at heq
        · simp at heq
        · have hfin := (IH (sizeOf children) hszc).2 ctx children b2 children2 le_rfl hwfc hreq
          simp only [Except.ok.injEq] at heq
          by_cases hn : n = ""
          · subst hn
            rw [if_neg (by decide)] at heq
            simp only [Except.ok.injEq, Prod.mk.injEq] at heq
            rw [← heq.2]
            simp [composites_finalized, hfin]
          · have hcond : (!(n == "")) = true := by
              simp [hn]
            rw [if_pos hcond] at heq
            rcases hlook : templates_by_name ctx n with _ | t <;> rw [hlook] at heq
            · simp at heq
            · simp only [Except.ok.injEq] at heq
              rcases hrp : t.require_pmap with _ | b3 <;> rw [hrp] at heq
              · simp at heq
              · simp only [Except.ok.injEq, Prod.mk.injEq] at heq
                rw [← heq.2]
                simp [composites_finalized, hfin]
      case sequence =>
        rcases children with _ | ⟨h, t⟩
        · simp [has_presence_map_bit, set_has_pmap] at heq
        · simp only [has_presence_map_bit, set_has_pmap] at heq
          rcases hreq : require_presence_map_bit ctx t with e | ⟨b2, t2⟩ <;>
            rw [hreq] at heq
          · simp at heq
          · simp only at heq
            rcases hh : has_presence_map_bit ctx h with e | ⟨bh, h2⟩ <;>
              rw [hh] at heq
            · simp at heq
            · simp only [Except.ok.injEq, Prod.mk.injEq] at heq
              have hsh : sizeOf h < N := by
                have := hsz
                simp only [Instruction.mk.sizeOf_spec, List.cons.sizeOf_spec] at this
                omega
              have hst : sizeOf t < N := by
                have := hsz
                simp only [Instruction.mk.sizeOf_spec, List.cons.sizeOf_spec] at this
                omega
              simp only [wf_list, Bool.and_eq_true] at hwfc
              have hfh := (IH (sizeOf h) hsh).1 ctx h bh h2 le_rfl hwfc.1 hh
              have hft := (IH (sizeOf t) hst).2 ctx t b2 t2 le_rfl hwfc.2 hreq
              rw [← heq.2]
              simp [Instruction.replaceHead, composites_finalized, list_finalized, hfh, hft]
    · intro ctx l bs l2 hsz hwf heq
      rcases l with _ | ⟨i, rest⟩
      · simp only [require_presence_map_bit, Except.ok.injEq, Prod.mk.injEq] at heq
        rw [← heq.2]
        simp [list_finalized]
      · simp only [require_presence_map_bit] at heq
        rcases hi : has_presence_map_bit ctx i with e | ⟨b, i2⟩ <;>
          rw [hi] at heq
        · simp at heq
        · rcases hr : require_presence_map_bit ctx rest with e | ⟨bs2, rest2⟩ <;>
            rw [hr] at heq
          · simp at heq
          · simp only [Except.ok.injEq, Prod.mk.injEq] at heq
            have hsi : sizeOf i < N := by
              have := hsz
              simp only [List.cons.sizeOf_spec] at this
              omega
            have hsr : sizeOf rest < N := by
              have := hsz
              simp only [List.cons.sizeOf_spec] at this
              omega
            simp only [wf_list, Bool.and_eq_true] at hwf
            have hfi := (IH (sizeOf i) hsi).1 ctx i b i2 le_rfl hwf.1 hi
            have hfr := (IH (sizeOf rest) hsr).2 ctx rest bs2 rest2 le_rfl hwf.2 hr
            rw [← heq.2]
            simp [list_finalized, hfi, hfr]

/-- The finalize loop preserves and extends the all-templates-finalized
property: it processes templates in declaration order, writing require_pmap
and (through the walk) every composite has_pmap flag. -/
theorem finalize_aux_finalizes :
    ∀ (todo done d : List Template),
      (∀ t ∈ todo, wf_list t.instructions = true) →
      (∀ t ∈ done, t.require_pmap.isSome ∧ list_finalized t.instructions = true) →
      finalize_aux done todo = .ok d →
      ∀ t ∈ d, t.require_pmap.isSome ∧ list_finalized t.instructions = true := by
  intro todo
  induction todo with
  | nil =>
    intro done d _ hdone heq
    simp only [finalize_aux, Except.ok.injEq] at heq
    subst heq
    exact hdone
  | cons t rest IHt =>
    intro done d hwf hdone heq
    simp only [finalize_aux] at heq
    rcases hreq : require_presence_map_bit (done ++ t :: rest) t.instructions
      with e | ⟨b, is2⟩ <;> rw [hreq] at heq
    · simp at heq
    · refine IHt _ d (fun u hu => hwf u (List.mem_cons_of_mem _ hu)) ?_ heq
      intro u hu
      rcases List.mem_append.1 hu with h | h
      · exact hdone u h
      · have hut : u = { t with instructions := is2, require_pmap := some b } := by
          simpa using h
        subst hut
        refine ⟨by simp, ?_⟩
        exact (fin_walk_finalizes (sizeOf t.instructions)).2 _ t.instructions b is2 le_rfl
          (hwf t (List.mem_cons_self t rest)) hreq

/-- C5: if new_from_templates succeeds on well-formed templates (scalars carry
no children, as the data model prescribes), then every returned template has
its require_pmap cell written and every composite instruction (Group,
Sequence, Decimal) in every returned tree has its has_pmap cell written: the
finalizer walk visits every instruction without short-circuiting. -/
theorem claim5_finalizer_totality (ts : List Template) (d : Definitions)
    (hwf : ∀ t ∈ ts, wf_list t.instructions = true)
    (h : new_from_templates ts = .ok d) :
    ∀ t ∈ d.templates, t.require_pmap.isSome ∧ list_finalized t.instructions = true := by
  simp only [new_from_templates] at h
  rcases hfin : finalize_aux [] ts with e | finalized <;> rw [hfin] at h
  · simp at h
  · simp only [Except.ok.injEq] at h
    subst h
    intro t ht
    exact finalize_aux_finalizes ts [] finalized hwf (by simp) hfin t ht

/-- Witness for C5 at a concrete input: one template holding an optional group
with a Copy field inside; after new_from_templates both the require_pmap cell
and the has_pmap cell of the group are written. -/
theorem claim5_finalizer_totality_witness :
    new_from_templates
      [⟨1, "T", .inherit, .any,
        [.mk 0 "g" .group .optional .none Option.none
          [.mk 1 "x" .uInt32 .mandatory .copy Option.none [] .inherit "x" .any Option.none]
          .inherit "" .any Option.none], Option.none⟩]
      = .ok ⟨[⟨1, "T", .inherit, .any,
          [.mk 0 "g" .group .optional .none Option.none
            [.mk 1 "x" .uInt32 .mandatory .copy Option.none [] .inherit "x" .any Option.none]
            .inherit "" .any (some true)], some true⟩], template_id_instruction⟩ ∧
    ((⟨1, "T", .inherit, .any,
        [.mk 0 "g" .group .optional .none Option.none
          [.mk 1 "x" .uInt32 .mandatory .copy Option.none [] .inherit "x" .any Option.none]
          .inherit "" .any (some true)], some true⟩ : Template).require_pmap.isSome ∧
      list_finalized (⟨1, "T", .inherit, .any,
        [.mk 0 "g" .group .optional .none Option.none
          [.mk 1 "x" .uInt32 .mandatory .copy Option.none [] .inherit "x" .any Option.none]
          .inherit "" .any (some true)], some true⟩ : Template).instructions = true) := by
  have hd : new_from_templates
      [⟨1, "T", .inherit, .any,
        [.mk 0 "g" .group .optional .none Option.none
          [.mk 1 "x" .uInt32 .mandatory .copy Option.none [] .inherit "x" .any Option.none]
          .inherit "" .any Option.none], Option.none⟩]
      = .ok ⟨[⟨1, "T", .inherit, .any,
          [.mk 0 "g" .group .optional .none Option.none
            [.mk 1 "x" .uInt32 .mandatory .copy Option.none [] .inherit "x" .any Option.none]
            .inherit "" .any (some true)], some true⟩], template_id_instruction⟩ := by
    simp [new_from_templates, finalize_aux, require_presence_map_bit, has_presence_map_bit,
      set_has_pmap, operator_bit, Instruction.is_optional, Instruction.presence,
      Instruction.operator]
  refine ⟨hd, ?_⟩
  refine claim5_finalizer_totality _ _ ?_ hd _ (by simp)
  intro t ht
  simp only [List.mem_singleton] at ht
  subst ht
  simp [wf_list, wf_instr]

/-- C1: for every scalar (non-composite) instruction, the finalizer predicate
has_presence_map_bit equals the operator truth-table of spec section 4.1
(None, Delta: false; Default, Copy, Increment, Tail: true; Constant: true iff
the presence is Optional), and the instruction is returned unchanged. -/
theorem claim1_scalar_operator_table (ctx : List Template) (i : Instruction)
    (h : i.value_type.isScalar = true) :
    has_presence_map_bit ctx i = .ok (contributes_bit_table i.operator i.presence, i) := by
  obtain ⟨id, n, vt, pr, op, iv, children, d, k, tr, hp⟩ := i
  cases vt <;>
    simp_all [ValueType.isScalar, Instruction.value_type, has_presence_map_bit,
      set_has_pmap, operator_bit, contributes_bit_table, Instruction.operator,
      Instruction.presence, Instruction.is_optional]

/-- Witness for C1 at a concrete input: a mandatory Copy uInt32 scalar gets a
presence bit. -/
theorem claim1_scalar_operator_table_witness :
    has_presence_map_bit []
      (.mk 7 "x" .uInt32 .mandatory .copy Option.none [] .inherit "x" .any Option.none)
    = .ok (true, .mk 7 "x" .uInt32 .mandatory .copy Option.none [] .inherit "x" .any Option.none) := by
  have h := claim1_scalar_operator_table []
    (.mk 7 "x" .uInt32 .mandatory .copy Option.none [] .inherit "x" .any Option.none)
    (by rfl)
  exact h

/-- C6: during finalization, has_presence_map_bit on a static TemplateReference
(non-empty name, childless as template references are) looks the referenced
template up by name: missing template is a schema error naming the reference;
a template whose require_pmap cell is still unset is the reorder-templates
schema error; otherwise the referenced require_pmap value is returned. -/
theorem claim6_static_template_ref (ctx : List Template) (id : Nat) (n : String)
    (pr : Presence) (op : Operator) (iv : Option Value) (d : Dictionary) (k : String)
    (tr : TypeRef) (hp : Option Bool) (hn : ¬ n = "") :
    (templates_by_name ctx n = Option.none →
      has_presence_map_bit ctx (.mk id n .templateReference pr op iv [] d k tr hp)
        = .error (.static ("template " ++ n ++ " not found"))) ∧
    (∀ t, templates_by_name ctx n = some t → t.require_pmap = Option.none →
      has_presence_map_bit ctx (.mk id n .templateReference pr op iv [] d k tr hp)
        = .error (.static ("template " ++ n ++ " not initialized yet; consider reordering templates"))) ∧
    (∀ t b, templates_by_name ctx n = some t → t.require_pmap = some b →
      has_presence_map_bit ctx (.mk id n .templateReference pr op iv [] d k tr hp)
        = .ok (b, .mk id n .templateReference pr op iv [] d k tr (some false))) := by
  refine ⟨?_, ?_, ?_⟩
  · intro hl
    simp [has_presence_map_bit, set_has_pmap, require_presence_map_bit, hn, hl]
  · intro t hl hr
    simp [has_presence_map_bit, set_has_pmap, require_presence_map_bit, hn, hl, hr]
  · intro t b hl hr
    simp [has_presence_map_bit, set_has_pmap, require_presence_map_bit, hn, hl, hr]

/-- Witness for C6 at a concrete input: a static reference to an already
finalized template B with require_pmap = some true yields true. -/
theorem claim6_static_template_ref_witness :
    has_presence_map_bit [⟨1, "B", .inherit, .any, [], some true⟩]
      (.mk 2 "B" .templateReference .mandatory .none Option.none [] .inherit "" .any Option.none)
    = .ok (true, .mk 2 "B" .templateReference .mandatory .none Option.none [] .inherit "" .any (some false)) := by
  have h := claim6_static_template_ref [⟨1, "B", .inherit, .any, [], some true⟩]
    2 "B" .mandatory .none Option.none .inherit "" .any Option.none (by decide)
  exact h.2.2 ⟨1, "B", .inherit, .any, [], some true⟩ true (by rfl) (by rfl)

/-- C3: finalizing a template set in which a Sequence instruction has an empty
child list does NOT return a schema error value; the Rust code panics first:
set_has_pmap slices instructions[1..] (out of range on an empty Vec) before
has_presence_map_bit can reach its guarded "has no length field" error.  The
theorem evaluates new_from_templates at such an input: the result is the
modelled panic, and it is not a returned Error::Static value. -/
theorem claim3_empty_sequence_panics :
    new_from_templates
      [⟨1, "T", .inherit, .any,
        [.mk 0 "s" .sequence .mandatory .none Option.none [] .inherit "" .any Option.none],
        Option.none⟩]
    = .error (.panics ("range start index 1 out of range for slice of length 0")) ∧
    ∀ m, new_from_templates
      [⟨1, "T", .inherit, .any,
        [.mk 0 "s" .sequence .mandatory .none Option.none [] .inherit "" .any Option.none],
        Option.none⟩]
      ≠ .error (.static m) := by
  constructor
  · simp [new_from_templates, finalize_aux, require_presence_map_bit,
      has_presence_map_bit, set_has_pmap]
  · intro m
    simp [new_from_templates, finalize_aux, require_presence_map_bit,
      has_presence_map_bit, set_has_pmap]

/-!
Decoder state machine (src/decoder/state.rs).  The collaborator boundaries are
modelled as follows.
* PresenceMap (src/base/pmap.rs, not under src/) is modelled from the spec: a
  bitmap with an explicit bit length and a read cursor; next_bit_set advances
  the cursor and returns the next bit, reads past the bit length return false.
  Its signature in the visible source (pmap_next_bit_set returns a plain bool)
  fixes that it has no error channel.
* Reader (src/decoder/reader.rs, not under src/): only read_presence_map is
  called by the visible code; the reader is modelled from the spec as a stream
  of (bits, bit_count) tokens.
* MessageFactory: the sink is modelled as an appended event list.
* Instruction::extract (src/base/instruction.rs, not under src/): the
  dispatcher treats it as an opaque fallible state transformer, so it is kept
  as a parameter (field ext of Env); theorems about the dispatcher hold for
  every extract, and witnesses instantiate it with concrete functions.
* Stacked (src/utils/stacked.rs, not under src/) is a LIFO; modelled as a list
  whose head is the top.
Rust ? on Err returns the error while the (mutated) state persists, so every
decode function returns Except (DecErr × DecoderState) DecoderState: the error
also carries the state at the moment of the early return.
-/

/-- Presence map.  Modelled from the spec: bitmap, explicit bit length, read
cursor (src/base/pmap.rs is not under src/). -/
structure PresenceMap where
  bitmap : Nat
  size : Nat
  cursor : Nat
deriving DecidableEq, Repr

/-- src: PresenceMap::new_empty — the sentinel map with no bits. -/
def PresenceMap.new_empty : PresenceMap := ⟨0, 0, 0⟩

/-- src: PresenceMap::new from a (bits, bit_count) reader token. -/
def PresenceMap.new (bitmap size : Nat) : PresenceMap := ⟨bitmap, size, 0⟩

/-- Modelled from the spec: advance the cursor and return the next bit; bits
are consumed from the most significant end of the transmitted bitmap; a read
past the explicit bit length returns false (the transfer encoding treats
absent trailing bits as zero).  Total: the visible signature
`fn pmap_next_bit_set(&mut self) -> bool` admits no error. -/
def PresenceMap.next_bit_set (pm : PresenceMap) : Bool × PresenceMap :=
  (if pm.cursor < pm.size then pm.bitmap.testBit (pm.size - 1 - pm.cursor) else false,
   { pm with cursor := pm.cursor + 1 })

/-- The behavior demanded by the spec sentence of C4, written from the spec
words for comparison: an implementation must treat over-reads as a decode
error. -/
def pmap_next_bit_spec (pm : PresenceMap) : Except String (Bool × PresenceMap) :=
  if pm.cursor < pm.size then
    .ok (pm.bitmap.testBit (pm.size - 1 - pm.cursor), { pm with cursor := pm.cursor + 1 })
  else
    .error ("presence map over-read")

/-- Decode-time errors: Error::Dynamic, Error::Runtime, a reader end-of-stream
error, and Rust panics (unwrap on None, stack exhaustion on unbounded
recursion). -/
inductive DecErr where
  | dynamic (msg : String)
  | runtime (msg : String)
  | endOfStream
  | panics (msg : String)
deriving DecidableEq, Repr

/-- MessageFactory calls, recorded as events in emission order. -/
inductive MsgEvent where
  | start_template (id : Nat) (name : String)
  | stop_template
  | start_template_ref (name : String) (dynamic : Bool)
  | stop_template_ref
  | start_group (name : String)
  | stop_group
  | start_sequence (id : Nat) (name : String) (length : Nat)
  | start_sequence_item (index : Nat)
  | stop_sequence_item
  | stop_sequence
  | set_value (id : Nat) (name : String) (value : Option Value)
deriving DecidableEq, Repr

/-- src/decoder/state.rs DecoderState: the four context stacks (head = top),
plus the reader stream and the sink event list. -/
structure DecoderState where
  template_id : List Nat
  dictionary : List Dictionary
  type_ref : List TypeRef
  presence_map : List PresenceMap
  reader : List (Nat × Nat)
  events : List MsgEvent
deriving DecidableEq, Repr

/-- src/decoder/state.rs DecoderState::new (lines 36-50): template_id empty,
dictionary [Global], type_ref [Any], presence_map [empty sentinel]. -/
def DecoderState.new (reader : List (Nat × Nat)) : DecoderState :=
  { template_id := []
    dictionary := [.global]
    type_ref := [.any]
    presence_map := [PresenceMap.new_empty]
    reader := reader
    events := [] }

/-- Append one sink call to the event list. -/
def emit (st : DecoderState) (e : MsgEvent) : DecoderState :=
  { st with events := st.events ++ [e] }

/-- Decoder environment: finalized templates plus the opaque field-extract
operation (Instruction::extract, a collaborator outside src/). -/
structure Env where
  templates : List Template
  tid_instruction : Instruction
  ext : Instruction → DecoderState → Except (DecErr × DecoderState) (Option Value × DecoderState)

/-- src/decoder/state.rs switch_dictionary: push unless Inherit; report
whether a push happened. -/
def switch_dictionary (d : Dictionary) (st : DecoderState) : Bool × DecoderState :=
  if d ≠ Dictionary.inherit then (true, { st with dictionary := d :: st.dictionary })
  else (false, st)

/-- src/decoder/state.rs restore_dictionary: pop. -/
def restore_dictionary (st : DecoderState) : DecoderState :=
  { st with dictionary := st.dictionary.tail }

/-- src/decoder/state.rs switch_type_ref: push unless Any. -/
def switch_type_ref (tr : TypeRef) (st : DecoderState) : Bool × DecoderState :=
  if tr ≠ TypeRef.any then (true, { st with type_ref := tr :: st.type_ref })
  else (false, st)

/-- src/decoder/state.rs restore_type_ref: pop. -/
def restore_type_ref (st : DecoderState) : DecoderState :=
  { st with type_ref := st.type_ref.tail }

/-- The paired conditional restores that end every scope-switching function. -/
def restore_if (hasD hasT : Bool) (st : DecoderState) : DecoderState :=
  let st1 := if hasD then restore_dictionary st else st
  if hasT then restore_type_ref st1 else st1

/-- src/decoder/state.rs drop_template_id: pop. -/
def drop_template_id (st : DecoderState) : DecoderState :=
  { st with template_id := st.template_id.tail }

/-- src/decoder/state.rs drop_presence_map: pop. -/
def drop_presence_map (st : DecoderState) : DecoderState :=
  { st with presence_map := st.presence_map.tail }

/-- src/decoder/state.rs decode_presence_map: read a (bits, size) pair from
the reader and push a fresh map. -/
def decode_presence_map (st : DecoderState) : Except (DecErr × DecoderState) DecoderState :=
  match st.reader with
  | [] => .error (.endOfStream, st)
  | (bm, sz) :: rest =>
    .ok { st with reader := rest, presence_map := PresenceMap.new bm sz :: st.presence_map }

/-- src/decoder/state.rs pmap_next_bit_set: next_bit_set on the stack top via
must_peek_mut.  Total — it returns a plain bool, there is no error channel.
The empty-stack arm is unreachable in any decode (the stack is created with
the sentinel); Rust would panic in must_peek_mut there. -/
def pmap_next_bit_set (st : DecoderState) : Bool × DecoderState :=
  match st.presence_map with
  | [] => (false, st)
  | pm :: rest =>
    let r := pm.next_bit_set
    (r.1, { st with presence_map := r.2 :: rest })

/-- src/decoder/state.rs read_template_id: run extract on the synthetic
template-id instruction and demand a UInt32. -/
def read_template_id (env : Env) (st : DecoderState) :
    Except (DecErr × DecoderState) (Nat × DecoderState) :=
  match env.ext env.tid_instruction st with
  | .error e => .error e
  | .ok (some (.uInt32 tid), st2) => .ok (tid, st2)
  | .ok (some _, st2) => .error (.runtime ("Wrong template id type in context storage"), st2)
  | .ok (Option.none, st2) => .error (.runtime ("No template id in context storage"), st2)

/-- src/decoder/state.rs decode_template_id: read and push. -/
def decode_template_id (env : Env) (st : DecoderState) :
    Except (DecErr × DecoderState) DecoderState :=
  match read_template_id env st with
  | .error e => .error e
  | .ok (tid, st2) => .ok { st2 with template_id := tid :: st2.template_id }

/-- src/decoder/state.rs extract_field: extract inside a local dictionary
switch; note the restore is skipped when extract fails (Rust ?). -/
def extract_field (env : Env) (i : Instruction) (st : DecoderState) :
    Except (DecErr × DecoderState) (Option Value × DecoderState) :=
  let r := switch_dictionary i.dictionary st
  match env.ext i r.2 with
  | .error e => .error e
  | .ok (v, st2) => .ok (v, if r.1 then restore_dictionary st2 else st2)

/-- src/decoder/state.rs decode_field: extract and forward to the sink, absent
values included. -/
def decode_field (env : Env) (i : Instruction) (st : DecoderState) :
    Except (DecErr × DecoderState) DecoderState :=
  match extract_field env i st with
  | .error e => .error e
  | .ok (v, st2) => .ok (emit st2 (.set_value i.id i.name v))

mutual

/-- src/decoder/state.rs decode_instructions: dispatch each instruction in
declaration order, aborting on the first error.  The fuel argument models the
native call stack: Rust recursion here is bounded only by the stack, and every
nested call is made with fuel - 1; exhaustion is the stack-overflow panic. -/
def decode_instructions : Nat → Env → List Instruction → DecoderState →
    Except (DecErr × DecoderState) DecoderState
  | 0, _, _, st => .error (.panics ("stack exhausted"), st)
  | _ + 1, _, [], st => .ok st
  | f + 1, env, i :: rest, st =>
    match decode_item f env i st with
    | .error e => .error e
    | .ok st2 => decode_instructions f env rest st2
termination_by f => (f, 2)
decreasing_by all_goals (simp_wf; omega)

/-- The per-instruction dispatch of decode_instructions (the match on
value_type inside the Rust loop body). -/
def decode_item : Nat → Env → Instruction → DecoderState →
    Except (DecErr × DecoderState) DecoderState
  | f, env, i, st =>
    match i.value_type with
    | .sequence => decode_sequence f env i st
    | .group => decode_group f env i st
    | .templateReference => decode_template_ref f env i st
    | _ => decode_field env i st
termination_by f => (f, 1)
decreasing_by all_goals omega

/-- src/decoder/state.rs decode_segment: push a fresh presence map read from
the stream, decode the instructions under it, pop it. -/
def decode_segment : Nat → Env → List Instruction → DecoderState →
    Except (DecErr × DecoderState) DecoderState
  | 0, _, _, st => .error (.panics ("stack exhausted"), st)
  | f + 1, env, is, st =>
    match decode_presence_map st with
    | .error e => .error e
    | .ok st2 =>
      match decode_instructions f env is st2 with
      | .error e => .error e
      | .ok st3 => .ok (drop_presence_map st3)
termination_by f => (f, 0)
decreasing_by all_goals (simp_wf; omega)

/-- src/decoder/state.rs decode_sequence (lines 147-178).  Scope switches,
unwrap of the length child (a panic when the child list is empty), length
extraction, and the three-way match on the extracted value; note that the
wrong-kind arm returns the error without restoring the switched scopes. -/
def decode_sequence : Nat → Env → Instruction → DecoderState →
    Except (DecErr × DecoderState) DecoderState
  | 0, _, _, st => .error (.panics ("stack exhausted"), st)
  | f + 1, env, i, st =>
    let r1 := switch_dictionary i.dictionary st
    let r2 := switch_type_ref i.type_ref r1.2
    match i.instructions with
    | [] => .error (.panics ("called Option::unwrap() on a None value"), r2.2)
    | lenI :: _ =>
      match extract_field env lenI r2.2 with
      | .error e => .error e
      | .ok (Option.none, st2) => .ok (restore_if r1.1 r2.1 st2)
      | .ok (some (.uInt32 len), st2) =>
        match decode_seq_items f env i len 0 (emit st2 (.start_sequence i.id i.name len)) with
        | .error e => .error e
        | .ok st3 => .ok (restore_if r1.1 r2.1 (emit st3 .stop_sequence))
      | .ok (some _, st2) => .error (.dynamic ("Length field must be UInt32"), st2)
termination_by f => (f, 0)
decreasing_by all_goals (simp_wf; omega)

/-- The element loop of decode_sequence (for idx in 0..length): each element
is a segment when the sequence's has_pmap cell holds true, and is decoded
under the enclosing presence map otherwise. -/
def decode_seq_items : Nat → Env → Instruction → Nat → Nat → DecoderState →
    Except (DecErr × DecoderState) DecoderState
  | 0, _, _, _, _, st => .error (.panics ("stack exhausted"), st)
  | f + 1, env, i, len, idx, st =>
    if idx < len then
      match (if i.has_pmap.getD false then
               decode_segment f env i.instructions.tail (emit st (.start_sequence_item idx))
             else
               decode_instructions f env i.instructions.tail (emit st (.start_sequence_item idx))) with
      | .error e => .error e
      | .ok st2 => decode_seq_items f env i len (idx + 1) (emit st2 .stop_sequence_item)
    else
      .ok st
termination_by f => (f, 0)
decreasing_by all_goals (simp_wf; omega)

/-- src/decoder/state.rs decode_group (lines 183-204): an optional group
consumes one bit of the enclosing map and is absent when that bit is false; a
mandatory group consumes no outer bit. -/
def decode_group : Nat → Env → Instruction → DecoderState →
    Except (DecErr × DecoderState) DecoderState
  | 0, _, _, st => .error (.panics ("stack exhausted"), st)
  | f + 1, env, i, st =>
    if i.is_optional then
      match pmap_next_bit_set st with
      | (false, st2) => .ok st2
      | (true, st2) => decode_group_present f env i st2
    else
      decode_group_present f env i st
termination_by f => (f, 0)
decreasing_by all_goals (simp_wf; omega)

/-- The present-group path of decode_group: scope switches, start_group, body
(a segment exactly when has_pmap holds true), stop_group, restores. -/
def decode_group_present : Nat → Env → Instruction → DecoderState →
    Except (DecErr × DecoderState) DecoderState
  | 0, _, _, st => .error (.panics ("stack exhausted"), st)
  | f + 1, env, i, st =>
    let r1 := switch_dictionary i.dictionary st
    let r2 := switch_type_ref i.type_ref r1.2
    match (if i.has_pmap.getD false then
             decode_segment f env i.instructions (emit r2.2 (.start_group i.name))
           else
             decode_instructions f env i.instructions (emit r2.2 (.start_group i.name))) with
    | .error e => .error e
    | .ok st2 => .ok (restore_if r1.1 r2.1 (emit st2 .stop_group))
termination_by f => (f, 0)
decreasing_by all_goals (simp_wf; omega)

/-- src/decoder/state.rs decode_template_ref (lines 209-243): static
references resolve by name with no pushes; dynamic references read and push a
fresh presence map, then read and push a template id, and resolve by id. -/
def decode_template_ref : Nat → Env → Instruction → DecoderState →
    Except (DecErr × DecoderState) DecoderState
  | 0, _, _, st => .error (.panics ("stack exhausted"), st)
  | f + 1, env, i, st =>
    if i.name == "" then
      match decode_presence_map st with
      | .error e => .error e
      | .ok st1 =>
        match decode_template_id env st1 with
        | .error e => .error e
        | .ok st2 =>
          match st2.template_id.head? with
          | Option.none => .error (.panics ("called Option::unwrap() on a None value"), st2)
          | some tid =>
            match templates_by_id env.templates tid with
            | Option.none => .error (.dynamic ("Unknown template id: " ++ toString tid), st2)
            | some tpl => decode_template_ref_body f env true tpl st2
    else
      match templates_by_name env.templates i.name with
      | Option.none => .error (.dynamic ("Unknown template: " ++ i.name), st)
      | some tpl => decode_template_ref_body f env false tpl st
termination_by f => (f, 0)
decreasing_by all_goals (simp_wf; omega)

/-- The shared tail of decode_template_ref after resolution: start_template_ref,
scope switches, children, restores, stop_template_ref, and for dynamic
references the template-id and presence-map pops. -/
def decode_template_ref_body : Nat → Env → Bool → Template → DecoderState →
    Except (DecErr × DecoderState) DecoderState
  | 0, _, _, _, st => .error (.panics ("stack exhausted"), st)
  | f + 1, env, isDyn, tpl, st =>
    let st1 := emit st (.start_template_ref tpl.name isDyn)
    let r1 := switch_dictionary tpl.dictionary st1
    let r2 := switch_type_ref tpl.type_ref r1.2
    match decode_instructions f env tpl.instructions r2.2 with
    | .error e => .error e
    | .ok st2 =>
      let st3 := emit (restore_if r1.1 r2.1 st2) .stop_template_ref
      .ok (if isDyn then drop_presence_map (drop_template_id st3) else st3)
termination_by f => (f, 0)
decreasing_by all_goals (simp_wf; omega)

end

/-- src/decoder/state.rs decode_template (lines 88-110): presence map, then
template id, resolve by id (Unknown template id otherwise), start_template,
scope switches, instructions, restores, stop_template, pops. -/
def decode_template (fuel : Nat) (env : Env) (st : DecoderState) :
    Except (DecErr × DecoderState) DecoderState :=
  match decode_presence_map st with
  | .error e => .error e
  | .ok st1 =>
    match decode_template_id env st1 with
    | .error e => .error e
    | .ok st2 =>
      match st2.template_id.head? with
      | Option.none => .error (.panics ("called Option::unwrap() on a None value"), st2)
      | some tid =>
        match templates_by_id env.templates tid with
        | Option.none => .error (.dynamic ("Unknown template id: " ++ toString tid), st2)
        | some tpl =>
          let st3 := emit st2 (.start_template tpl.id tpl.name)
          let r1 := switch_dictionary tpl.dictionary st3
          let r2 := switch_type_ref tpl.type_ref r1.2
          match decode_instructions fuel env tpl.instructions r2.2 with
          | .error e => .error e
          | .ok st4 =>
            .ok (drop_presence_map (drop_template_id
              (emit (restore_if r1.1 r2.1 st4) .stop_template)))

/-- Dictionary keyspace selector (src/decoder/context.rs DictionaryType). -/
inductive DictionaryType where
  | global
  | template (id : Nat)
  | type_ (name : String)
  | userDefined (name : String)
deriving DecidableEq, Repr

/-- Runtime panics of make_dict_type: the unreachable!() arm for Inherit, and
the must_peek panics on empty stacks. -/
inductive RtPanic where
  | inheritUnreachable
  | emptyStack
deriving DecidableEq, Repr

/-- src/decoder/state.rs make_dict_type (lines 299-320): selects the keyspace
from the tops of the dictionary, template_id and type_ref stacks.  The panic
arms (unreachable!() on Inherit, must_peek on an empty stack) are made
explicit as error values so the safety claim can name them. -/
def make_dict_type (st : DecoderState) : Except RtPanic DictionaryType :=
  match st.dictionary with
  | [] => .error .emptyStack
  | Dictionary.inherit :: _ => .error .inheritUnreachable
  | Dictionary.global :: _ => .ok .global
  | Dictionary.template :: _ =>
    match st.template_id with
    | [] => .error .emptyStack
    | tid :: _ => .ok (.template tid)
  | Dictionary.type_ :: _ =>
    match st.type_ref with
    | [] => .error .emptyStack
    | TypeRef.any :: _ => .ok (.type_ ("__any__"))
    | TypeRef.applicationType nm :: _ => .ok (.type_ nm)
  | Dictionary.userDefined nm :: _ => .ok (.userDefined nm)

/-- A concrete environment for the C2 counterexample: no templates; extract
always yields template id 5 without touching the state. -/
def c2_env : Env :=
  { templates := []
    tid_instruction := template_id_instruction
    ext := fun _ st => .ok (some (.uInt32 5), st) }

/-- C2 counterexample: a decode error (unknown template id) returns to the
caller with the context stacks NOT at their initial sentinels: the pushed
presence map and the pushed template id are still on the stacks at the error
return (the Rust ? operator returns without any restore).  This refutes the
claim that after any decode error all four stacks equal their sentinels. -/
theorem claim2_counterexample :
    decode_template 9 c2_env (DecoderState.new [(0, 0)]) =
      .error (.dynamic ("Unknown template id: " ++ toString (5 : Nat)),
        { template_id := [5]
          dictionary := [.global]
          type_ref := [.any]
          presence_map := [PresenceMap.new 0 0, PresenceMap.new_empty]
          reader := []
          events := [] }) ∧
    ¬ ([5] = ([] : List Nat)) ∧
    ¬ ([PresenceMap.new 0 0, PresenceMap.new_empty] = [PresenceMap.new_empty]) := by
  refine ⟨rfl, by decide, by decide⟩

/-- C2 amended: the decoder does not clear the stacks on error; instead each
message decode starts from a freshly constructed DecoderState whose four
stacks ARE the initial sentinels (DecoderState::new, lines 36-50), so the next
decode starts fresh although an error return can leave the old state off its
sentinels. -/
theorem claim2_fresh_state_sentinels (reader : List (Nat × Nat)) :
    (DecoderState.new reader).template_id = [] ∧
    (DecoderState.new reader).dictionary = [Dictionary.global] ∧
    (DecoderState.new reader).type_ref = [TypeRef.any] ∧
    (DecoderState.new reader).presence_map = [PresenceMap.new_empty] :=
  ⟨rfl, rfl, rfl, rfl⟩

/-- C4 counterexample: reading past the explicit bit length is NOT reported as
a decode error.  next_bit_set returns a plain bit (false) on the over-read
input — its bool signature admits no error at all — while the version written
from the spec words errors on the same input. -/
theorem claim4_counterexample :
    PresenceMap.next_bit_set ⟨0, 0, 0⟩ = (false, ⟨0, 0, 1⟩) ∧
    pmap_next_bit_spec ⟨0, 0, 0⟩ = .error ("presence map over-read") ∧
    pmap_next_bit_set { DecoderState.new [] with presence_map := [⟨0, 0, 0⟩] }
      = (false, { DecoderState.new [] with presence_map := [⟨0, 0, 1⟩] }) := by
  refine ⟨rfl, rfl, rfl⟩

/-- C4 amended: an over-read silently returns the bit value false (absent
trailing bits read as zero) and advances the cursor; no error can be reported
because the operation is total. -/
theorem claim4_overread_returns_false (pm : PresenceMap) (h : pm.size ≤ pm.cursor) :
    (pm.next_bit_set).1 = false ∧ (pm.next_bit_set).2.cursor = pm.cursor + 1 := by
  constructor
  · simp [PresenceMap.next_bit_set]
    omega
  · simp [PresenceMap.next_bit_set]

/-- Witness for the amended C4 at a concrete input. -/
theorem claim4_overread_returns_false_witness :
    (PresenceMap.mk 1 1 3).size ≤ (PresenceMap.mk 1 1 3).cursor ∧
    ((PresenceMap.mk 1 1 3).next_bit_set.1 = false ∧
      (PresenceMap.mk 1 1 3).next_bit_set.2.cursor = (PresenceMap.mk 1 1 3).cursor + 1) :=
  ⟨by decide, claim4_overread_returns_false ⟨1, 1, 3⟩ (by decide)⟩

/-!  Small projection lemmas about the state helpers, used throughout the
dispatcher lemmas below. -/

@[simp] theorem emit_events (st : DecoderState) (e : MsgEvent) :
    (emit st e).events = st.events ++ [e] := rfl

@[simp] theorem emit_template_id (st : DecoderState) (e : MsgEvent) :
    (emit st e).template_id = st.template_id := rfl

@[simp] theorem emit_dictionary (st : DecoderState) (e : MsgEvent) :
    (emit st e).dictionary = st.dictionary := rfl

@[simp] theorem emit_type_ref (st : DecoderState) (e : MsgEvent) :
    (emit st e).type_ref = st.type_ref := rfl

@[simp] theorem emit_presence_map (st : DecoderState) (e : MsgEvent) :
    (emit st e).presence_map = st.presence_map := rfl

@[simp] theorem switch_dictionary_snd_events (d : Dictionary) (st : DecoderState) :
    ((switch_dictionary d st).2).events = st.events := by
  unfold switch_dictionary; split <;> rfl

@[simp] theorem switch_dictionary_snd_template_id (d : Dictionary) (st : DecoderState) :
    ((switch_dictionary d st).2).template_id = st.template_id := by
  unfold switch_dictionary; split <;> rfl

@[simp] theorem switch_dictionary_snd_type_ref (d : Dictionary) (st : DecoderState) :
    ((switch_dictionary d st).2).type_ref = st.type_ref := by
  unfold switch_dictionary; split <;> rfl

@[simp] theorem switch_dictionary_snd_presence_map (d : Dictionary) (st : DecoderState) :
    ((switch_dictionary d st).2).presence_map = st.presence_map := by
  unfold switch_dictionary; split <;> rfl

@[simp] theorem switch_type_ref_snd_events (tr : TypeRef) (st : DecoderState) :
    ((switch_type_ref tr st).2).events = st.events := by
  unfold switch_type_ref; split <;> rfl

@[simp] theorem switch_type_ref_snd_template_id (tr : TypeRef) (st : DecoderState) :
    ((switch_type_ref tr st).2).template_id = st.template_id := by
  unfold switch_type_ref; split <;> rfl

@[simp] theorem switch_type_ref_snd_dictionary (tr : TypeRef) (st : DecoderState) :
    ((switch_type_ref tr st).2).dictionary = st.dictionary := by
  unfold switch_type_ref; split <;> rfl

@[simp] theorem switch_type_ref_snd_presence_map (tr : TypeRef) (st : DecoderState) :
    ((switch_type_ref tr st).2).presence_map = st.presence_map := by
  unfold switch_type_ref; split <;> rfl

@[simp] theorem restore_dictionary_events (st : DecoderState) :
    (restore_dictionary st).events = st.events := rfl

@[simp] theorem restore_type_ref_events (st : DecoderState) :
    (restore_type_ref st).events = st.events := rfl

@[simp] theorem restore_if_events (hasD hasT : Bool) (st : DecoderState) :
    (restore_if hasD hasT st).events = st.events := by
  unfold restore_if
  split <;> split <;> rfl

@[simp] theorem drop_template_id_events (st : DecoderState) :
    (drop_template_id st).events = st.events := rfl

@[simp] theorem drop_presence_map_events (st : DecoderState) :
    (drop_presence_map st).events = st.events := rfl

@[simp] theorem pmap_next_bit_set_events (st : DecoderState) :
    ((pmap_next_bit_set st).2).events = st.events := by
  unfold pmap_next_bit_set
  rcases st.presence_map with _ | ⟨pm, rest⟩ <;> rfl

/-- The sink event list only grows: st2 extends st. -/
def ev_ext (st st2 : DecoderState) : Prop :=
  ∃ new, st2.events = st.events ++ new

theorem ev_ext_refl (st : DecoderState) : ev_ext st st := ⟨[], by simp⟩

theorem ev_ext_trans {a b c : DecoderState} (h1 : ev_ext a b) (h2 : ev_ext b c) :
    ev_ext a c := by
  obtain ⟨n1, e1⟩ := h1
  obtain ⟨n2, e2⟩ := h2
  exact ⟨n1 ++ n2, by simp [e2, e1]⟩

theorem ev_ext_of_events_eq {a b : DecoderState} (h : b.events = a.events) :
    ev_ext a b := ⟨[], by simp [h]⟩

/-- Extract only appends events (it forwards nothing to the sink itself, but
this weaker assumption is all the dispatcher lemmas need). -/
def ext_mono (env : Env) : Prop :=
  ∀ i st v st2, env.ext i st = .ok (v, st2) → ev_ext st st2

theorem extract_field_mono {env : Env} (hm : ext_mono env) {i : Instruction}
    {st : DecoderState} {v : Option Value} {st2 : DecoderState}
    (h : extract_field env i st = .ok (v, st2)) : ev_ext st st2 := by
  unfold extract_field at h
  simp only [] at h
  rcases he : env.ext i (switch_dictionary i.dictionary st).2 with e | ⟨v2, st3⟩ <;>
    rw [he] at h
  · simp at h
  · simp only [Except.ok.injEq, Prod.mk.injEq] at h
    have h1 : ev_ext (switch_dictionary i.dictionary st).2 st3 := hm _ _ _ _ he
    obtain ⟨n1, e1⟩ := h1
    refine ⟨n1, ?_⟩
    rw [← h.2]
    split <;> simp [restore_dictionary, e1]

theorem ev_ext_emit (st : DecoderState) (e : MsgEvent) : ev_ext st (emit st e) :=
  ⟨[e], by simp⟩

theorem decode_field_mono {env : Env} (hm : ext_mono env) {i : Instruction}
    {st st2 : DecoderState} (h : decode_field env i st = .ok st2) : ev_ext st st2 := by
  unfold decode_field at h
  rcases he : extract_field env i st with e | ⟨v, st3⟩ <;> rw [he] at h
  · simp at h
  · simp only [Except.ok.injEq] at h
    subst h
    exact ev_ext_trans (extract_field_mono hm he) (ev_ext_emit _ _)

theorem decode_presence_map_ok {st st1 : DecoderState}
    (h : decode_presence_map st = .ok st1) :
    st1.events = st.events ∧ st1.template_id = st.template_id ∧
    st1.dictionary = st.dictionary ∧ st1.type_ref = st.type_ref ∧
    ∃ bm sz, st1.presence_map = PresenceMap.new bm sz :: st.presence_map := by
  rcases hr : st.reader with _ | ⟨⟨bm, sz⟩, rest⟩ <;> simp [decode_presence_map, hr] at h
  · rw [← h]
    exact ⟨rfl, rfl, rfl, rfl, bm, sz, rfl⟩

theorem read_template_id_ok {env : Env} {st : DecoderState} {tid : Nat}
    {st2 : DecoderState} (h : read_template_id env st = .ok (tid, st2)) :
    env.ext env.tid_instruction st = .ok (some (.uInt32 tid), st2) := by
  unfold read_template_id at h
  rcases he : env.ext env.tid_instruction st with e | ⟨v, st3⟩ <;> rw [he] at h
  · simp at h
  · rcases v with _ | val
    · simp at h
    · rcases val <;> simp at h
      rw [h.1, h.2]

theorem decode_template_id_ok {env : Env} {st st2 : DecoderState}
    (h : decode_template_id env st = .ok st2) :
    ∃ tid st1, read_template_id env st = .ok (tid, st1) ∧
      st2 = { st1 with template_id := tid :: st1.template_id } := by
  unfold decode_template_id at h
  rcases he : read_template_id env st with e | ⟨tid, st1⟩ <;> rw [he] at h
  · simp at h
  · simp only [Except.ok.injEq] at h
    exact ⟨tid, st1, rfl, h.symm⟩

theorem decode_template_id_mono {env : Env} (hm : ext_mono env) {st st2 : DecoderState}
    (h : decode_template_id env st = .ok st2) : ev_ext st st2 := by
  obtain ⟨tid, st1, h1, h2⟩ := decode_template_id_ok h
  have := hm _ _ _ _ (read_template_id_ok h1)
  obtain ⟨n, e⟩ := this
  exact ⟨n, by rw [h2]; simpa using e⟩

/-- Every dispatcher function only appends to the sink event list (spec: field
emission is in declaration order; nothing is retracted).  Proved for all nine
mutually recursive decode functions at once, by induction on the fuel. -/
theorem decode_mono (env : Env) (hm : ext_mono env) : ∀ f : Nat,
    (∀ is st st2, decode_segment f env is st = .ok st2 → ev_ext st st2) ∧
    (∀ i len idx st st2, decode_seq_items f env i len idx st = .ok st2 → ev_ext st st2) ∧
    (∀ i st st2, decode_group_present f env i st = .ok st2 → ev_ext st st2) ∧
    (∀ dyn tpl st st2, decode_template_ref_body f env dyn tpl st = .ok st2 → ev_ext st st2) ∧
    (∀ i st st2, decode_sequence f env i st = .ok st2 → ev_ext st st2) ∧
    (∀ i st st2, decode_group f env i st = .ok st2 → ev_ext st st2) ∧
    (∀ i st st2, decode_template_ref f env i st = .ok st2 → ev_ext st st2) ∧
    (∀ i st st2, decode_item f env i st = .ok st2 → ev_ext st st2) ∧
    (∀ is st st2, decode_instructions f env is st = .ok st2 → ev_ext st st2) := by
  intro f
  induction f with
  | zero =>
    have hitem : ∀ i st st2, decode_item 0 env i st = .ok st2 → ev_ext st st2 := by
      intro i st st2 h
      simp only [decode_item] at h
      split at h
      · simp [decode_sequence] at h
      · simp [decode_group] at h
      · simp [decode_template_ref] at h
      · exact decode_field_mono hm h
    refine ⟨?_, ?_, ?_, ?_, ?_, ?_, ?_, hitem, ?_⟩ <;> intro _ _ _
    · intro h; simp [decode_segment] at h
    · intro _ _ h; simp [decode_seq_items] at h
    · intro h; simp [decode_group_present] at h
    · intro _ h; simp [decode_template_ref_body] at h
    · intro h; simp [decode_sequence] at h
    · intro h; simp [decode_group] at h
    · intro h; simp [decode_template_ref] at h
    · intro h; simp [decode_instructions] at h
  | succ f IHf =>
    obtain ⟨ih1, ih2, ih3, ih4, ih5, ih6, ih7, ih8, ih9⟩ := IHf
    have A1 : ∀ is st st2, decode_segment (f + 1) env is st = .ok st2 → ev_ext st st2 := by
      intro is st st2 h
      simp only [decode_segment] at h
      split at h
      · simp at h
      · next st1 hpm =>
        split at h
        · simp at h
        · next st3 hdi =>
          simp only [Except.ok.injEq] at h
          subst h
          have e1 := (decode_presence_map_ok hpm).1
          have e2 := ih9 _ _ _ hdi
          exact ev_ext_trans (ev_ext_of_events_eq e1)
            (ev_ext_trans e2 (ev_ext_of_events_eq (by simp)))
    have A2 : ∀ i len idx st st2, decode_seq_items (f + 1) env i len idx st = .ok st2 →
        ev_ext st st2 := by
      intro i len idx st st2 h
      simp only [decode_seq_items] at h
      split at h
      · split at h
        · simp at h
        · next stB hbody =>
          have h1 : ev_ext (emit st (.start_sequence_item idx)) stB := by
            split at hbody
            · exact ih1 _ _ _ hbody
            · exact ih9 _ _ _ hbody
          have h3 := ih2 _ _ _ _ _ h
          exact ev_ext_trans (ev_ext_emit _ _)
            (ev_ext_trans h1 (ev_ext_trans (ev_ext_emit _ _) h3))
      · simp only [Except.ok.injEq] at h
        subst h
        exact ev_ext_refl _
    have A3 : ∀ i st st2, decode_group_present (f + 1) env i st = .ok st2 → ev_ext st st2 := by
      intro i st st2 h
      simp only [decode_group_present] at h
      split at h
      · simp at h
      · next stB hbody =>
        simp only [Except.ok.injEq] at h
        subst h
        have h2 : ev_ext (emit (switch_type_ref i.type_ref
            (switch_dictionary i.dictionary st).2).2 (.start_group i.name)) stB := by
          split at hbody
          · exact ih1 _ _ _ hbody
          · exact ih9 _ _ _ hbody
        exact ev_ext_trans ⟨[.start_group i.name], by simp⟩
          (ev_ext_trans h2 ⟨[.stop_group], by simp⟩)
    have A4 : ∀ dyn tpl st st2, decode_template_ref_body (f + 1) env dyn tpl st = .ok st2 →
        ev_ext st st2 := by
      intro dyn tpl st st2 h
      simp only [decode_template_ref_body] at h
      split at h
      · simp at h
      · next stB hdi =>
        simp only [Except.ok.injEq] at h
        subst h
        have h2 := ih9 _ _ _ hdi
        refine ev_ext_trans ⟨[.start_template_ref tpl.name dyn], by simp⟩
          (ev_ext_trans h2 ⟨[MsgEvent.stop_template_ref], ?_⟩)
        split <;> simp
    have A5 : ∀ i st st2, decode_sequence (f + 1) env i st = .ok st2 → ev_ext st st2 := by
      intro i st st2 h
      simp only [decode_sequence] at h
      split at h
      · simp at h
      · next lenI restI his =>
        split at h
        · simp at h
        · next stE hex =>
          simp only [Except.ok.injEq] at h
          subst h
          exact ev_ext_trans (ev_ext_trans (ev_ext_of_events_eq (by simp))
            (extract_field_mono hm hex)) (ev_ext_of_events_eq (by simp))
        · next x stE hex =>
          split at h
          · simp at h
          · next stL hloop =>
            simp only [Except.ok.injEq] at h
            subst h
            have hpre : ev_ext st stE := ev_ext_trans (ev_ext_of_events_eq (by simp))
              (extract_field_mono hm hex)
            exact ev_ext_trans hpre (ev_ext_trans (ev_ext_emit _ _)
              (ev_ext_trans (ih2 _ _ _ _ _ hloop) ⟨[MsgEvent.stop_sequence], by simp⟩))
        all_goals simp at h
    have A6 : ∀ i st st2, decode_group (f + 1) env i st = .ok st2 → ev_ext st st2 := by
      intro i st st2 h
      simp only [decode_group] at h
      split at h
      · split at h
        · next stB hb =>
          simp only [Except.ok.injEq] at h
          subst h
          have hp := pmap_next_bit_set_events st
          rw [hb] at hp
          exact ev_ext_of_events_eq hp
        · next stB hb =>
          have hp := pmap_next_bit_set_events st
          rw [hb] at hp
          exact ev_ext_trans (ev_ext_of_events_eq hp) (ih3 _ _ _ h)
      · exact ih3 _ _ _ h
    have A7 : ∀ i st st2, decode_template_ref (f + 1) env i st = .ok st2 → ev_ext st st2 := by
      intro i st st2 h
      simp only [decode_template_ref] at h
      split at h
      · split at h
        · simp at h
        · next st1 hpm =>
          split at h
          · simp at h
          · next stT htid =>
            split at h
            · simp at h
            · next tid hhd =>
              split at h
              · simp at h
              · next tpl hlk =>
                exact ev_ext_trans (ev_ext_of_events_eq (decode_presence_map_ok hpm).1)
                  (ev_ext_trans (decode_template_id_mono hm htid) (ih4 _ _ _ _ h))
      · split at h
        · simp at h
        · next tpl hlk =>
          exact ih4 _ _ _ _ h
    have A8 : ∀ i st st2, decode_item (f + 1) env i st = .ok st2 → ev_ext st st2 := by
      intro i st st2 h
      simp only [decode_item] at h
      split at h
      · exact A5 _ _ _ h
      · exact A6 _ _ _ h
      · exact A7 _ _ _ h
      · exact decode_field_mono hm h
    have A9 : ∀ is st st2, decode_instructions (f + 1) env is st = .ok st2 → ev_ext st st2 := by
      intro is st st2 h
      rcases is with _ | ⟨i, rest⟩
      · simp only [decode_instructions, Except.ok.injEq] at h
        subst h
        exact ev_ext_refl _
      · simp only [decode_instructions] at h
        split at h
        · simp at h
        · next stI hit =>
          exact ev_ext_trans (ih8 _ _ _ hit) (ih9 _ _ _ h)
    exact ⟨A1, A2, A3, A4, A5, A6, A7, A8, A9⟩

/-!  Stack-discipline infrastructure: successful decode calls restore the
context stacks (up to the cursor of the top presence map), and error returns
only leave extra non-Inherit dictionary entries pushed. -/

@[simp] theorem drop_template_id_dictionary (st : DecoderState) :
    (drop_template_id st).dictionary = st.dictionary := rfl

@[simp] theorem drop_template_id_type_ref (st : DecoderState) :
    (drop_template_id st).type_ref = st.type_ref := rfl

@[simp] theorem drop_template_id_presence_map (st : DecoderState) :
    (drop_template_id st).presence_map = st.presence_map := rfl

@[simp] theorem drop_template_id_template_id (st : DecoderState) :
    (drop_template_id st).template_id = st.template_id.tail := rfl

@[simp] theorem drop_presence_map_dictionary (st : DecoderState) :
    (drop_presence_map st).dictionary = st.dictionary := rfl

@[simp] theorem drop_presence_map_type_ref (st : DecoderState) :
    (drop_presence_map st).type_ref = st.type_ref := rfl

@[simp] theorem drop_presence_map_template_id (st : DecoderState) :
    (drop_presence_map st).template_id = st.template_id := rfl

@[simp] theorem drop_presence_map_presence_map (st : DecoderState) :
    (drop_presence_map st).presence_map = st.presence_map.tail := rfl

@[simp] theorem restore_dictionary_template_id (st : DecoderState) :
    (restore_dictionary st).template_id = st.template_id := rfl

@[simp] theorem restore_dictionary_type_ref (st : DecoderState) :
    (restore_dictionary st).type_ref = st.type_ref := rfl

@[simp] theorem restore_dictionary_presence_map (st : DecoderState) :
    (restore_dictionary st).presence_map = st.presence_map := rfl

@[simp] theorem restore_dictionary_dictionary (st : DecoderState) :
    (restore_dictionary st).dictionary = st.dictionary.tail := rfl

@[simp] theorem restore_type_ref_template_id (st : DecoderState) :
    (restore_type_ref st).template_id = st.template_id := rfl

@[simp] theorem restore_type_ref_dictionary (st : DecoderState) :
    (restore_type_ref st).dictionary = st.dictionary := rfl

@[simp] theorem restore_type_ref_presence_map (st : DecoderState) :
    (restore_type_ref st).presence_map = st.presence_map := rfl

@[simp] theorem restore_type_ref_type_ref (st : DecoderState) :
    (restore_type_ref st).type_ref = st.type_ref.tail := rfl

@[simp] theorem restore_if_template_id (hasD hasT : Bool) (st : DecoderState) :
    (restore_if hasD hasT st).template_id = st.template_id := by
  unfold restore_if
  split <;> split <;> rfl

@[simp] theorem restore_if_presence_map (hasD hasT : Bool) (st : DecoderState) :
    (restore_if hasD hasT st).presence_map = st.presence_map := by
  unfold restore_if
  split <;> split <;> rfl

@[simp] theorem pmap_next_bit_set_template_id (st : DecoderState) :
    ((pmap_next_bit_set st).2).template_id = st.template_id := by
  unfold pmap_next_bit_set
  rcases st.presence_map with _ | ⟨pm, rest⟩ <;> rfl

@[simp] theorem pmap_next_bit_set_dictionary (st : DecoderState) :
    ((pmap_next_bit_set st).2).dictionary = st.dictionary := by
  unfold pmap_next_bit_set
  rcases st.presence_map with _ | ⟨pm, rest⟩ <;> rfl

@[simp] theorem pmap_next_bit_set_type_ref (st : DecoderState) :
    ((pmap_next_bit_set st).2).type_ref = st.type_ref := by
  unfold pmap_next_bit_set
  rcases st.presence_map with _ | ⟨pm, rest⟩ <;> rfl

/-- Two presence-map stacks that agree except possibly in the cursor of the
top map. -/
def pmap_sim : List PresenceMap → List PresenceMap → Prop
  | [], [] => True
  | a :: r, b :: s => a.bitmap = b.bitmap ∧ a.size = b.size ∧ r = s
  | _, _ => False

theorem pmap_sim_refl : ∀ l, pmap_sim l l
  | [] => trivial
  | _ :: _ => ⟨rfl, rfl, rfl⟩

theorem pmap_sim_trans : ∀ {a b c : List PresenceMap},
    pmap_sim a b → pmap_sim b c → pmap_sim a c := by
  intro a b c h1 h2
  rcases a with _ | ⟨x, r⟩ <;> rcases b with _ | ⟨y, s⟩ <;> rcases c with _ | ⟨z, t⟩ <;>
    simp [pmap_sim] at h1 h2 ⊢
  exact ⟨h1.1.trans h2.1, h1.2.1.trans h2.2.1, h1.2.2.trans h2.2.2⟩

theorem pmap_sim_cons {a : PresenceMap} {r m : List PresenceMap}
    (h : pmap_sim (a :: r) m) :
    ∃ b, m = b :: r ∧ a.bitmap = b.bitmap ∧ a.size = b.size := by
  rcases m with _ | ⟨b, s⟩
  · exact absurd h (by simp [pmap_sim])
  · exact ⟨b, by rw [h.2.2], h.1, h.2.1⟩

theorem pmap_sim_tail {l m : List PresenceMap} (h : pmap_sim l m) :
    m.tail = l.tail := by
  rcases l with _ | ⟨x, r⟩ <;> rcases m with _ | ⟨y, s⟩ <;> simp [pmap_sim] at h ⊢
  exact h.2.2.symm

/-- Success preservation: the three scope stacks return exactly, the presence
map stack up to the top cursor. -/
def pres (st st2 : DecoderState) : Prop :=
  st2.template_id = st.template_id ∧ st2.dictionary = st.dictionary ∧
  st2.type_ref = st.type_ref ∧ pmap_sim st.presence_map st2.presence_map

theorem pres_refl (st : DecoderState) : pres st st := ⟨rfl, rfl, rfl, pmap_sim_refl _⟩

theorem pres_trans {a b c : DecoderState} (h1 : pres a b) (h2 : pres b c) : pres a c :=
  ⟨h2.1.trans h1.1, h2.2.1.trans h1.2.1, h2.2.2.1.trans h1.2.2.1,
    pmap_sim_trans h1.2.2.2 h2.2.2.2⟩

theorem pres_emit (st : DecoderState) (e : MsgEvent) : pres st (emit st e) :=
  ⟨rfl, rfl, rfl, pmap_sim_refl _⟩

theorem pres_pmap_next_bit (st : DecoderState) : pres st ((pmap_next_bit_set st).2) := by
  refine ⟨by simp, by simp, by simp, ?_⟩
  rcases hpm : st.presence_map with _ | ⟨pm, rest⟩
  · simp [pmap_next_bit_set, hpm, pmap_sim_refl]
  · simp only [pmap_next_bit_set, hpm]
    exact ⟨rfl, rfl, rfl⟩

/-- Error-side dictionary discipline: the error state carries the original
dictionary stack with only non-Inherit entries pushed on top. -/
def dict_pushed (st st2 : DecoderState) : Prop :=
  ∃ pushed, st2.dictionary = pushed ++ st.dictionary ∧ Dictionary.inherit ∉ pushed

theorem dict_pushed_refl (st : DecoderState) : dict_pushed st st := ⟨[], by simp⟩

theorem dict_pushed_of_eq {a b : DecoderState} (h : b.dictionary = a.dictionary) :
    dict_pushed a b := ⟨[], by simp [h]⟩

theorem dict_pushed_of_pres {a b : DecoderState} (h : pres a b) : dict_pushed a b :=
  dict_pushed_of_eq h.2.1

theorem dict_pushed_trans {a b c : DecoderState}
    (h1 : dict_pushed a b) (h2 : dict_pushed b c) : dict_pushed a c := by
  obtain ⟨p1, e1, n1⟩ := h1
  obtain ⟨p2, e2, n2⟩ := h2
  exact ⟨p2 ++ p1, by simp [e2, e1], by simp [n1, n2]⟩

theorem pres_dict_pushed_trans {a b c : DecoderState}
    (h1 : pres a b) (h2 : dict_pushed b c) : dict_pushed a c :=
  dict_pushed_trans (dict_pushed_of_pres h1) h2

theorem switch_dictionary_pushed (d : Dictionary) (st : DecoderState) :
    dict_pushed st ((switch_dictionary d st).2) := by
  unfold switch_dictionary
  split
  · next hne => exact ⟨[d], by simp, by simpa using Ne.symm hne⟩
  · exact dict_pushed_refl st

theorem switch_type_ref_pushed (d : Dictionary) (tr : TypeRef) (st : DecoderState) :
    dict_pushed st ((switch_type_ref tr (switch_dictionary d st).2).2) :=
  dict_pushed_trans (switch_dictionary_pushed d st) (dict_pushed_of_eq (by simp))

/-- Extract under tameness. -/
def ext_tame (env : Env) : Prop :=
  (∀ i st v st2, env.ext i st = .ok (v, st2) → pres st st2) ∧
  (∀ i st e st2, env.ext i st = .error (e, st2) → st2.dictionary = st.dictionary)

theorem extract_field_pres {env : Env} (ht : ext_tame env) {i : Instruction}
    {st : DecoderState} {v : Option Value} {st2 : DecoderState}
    (h : extract_field env i st = .ok (v, st2)) : pres st st2 := by
  unfold extract_field at h
  simp only [] at h
  rcases he : env.ext i (switch_dictionary i.dictionary st).2 with e | ⟨v2, st3⟩ <;>
    rw [he] at h
  · simp at h
  · simp only [Except.ok.injEq, Prod.mk.injEq] at h
    have hp : pres (switch_dictionary i.dictionary st).2 st3 := ht.1 _ _ _ _ he
    rw [← h.2]
    by_cases hd : i.dictionary = Dictionary.inherit
    · have hsw : switch_dictionary i.dictionary st = (false, st) := by
        simp [switch_dictionary, hd]
      rw [hsw] at hp ⊢
      simpa using hp
    · have hsw : switch_dictionary i.dictionary st =
          (true, { st with dictionary := i.dictionary :: st.dictionary }) := by
        simp [switch_dictionary, hd]
      rw [hsw] at hp ⊢
      have h1 : st3.template_id = st.template_id := by simpa using hp.1
      have h2 : st3.dictionary = i.dictionary :: st.dictionary := by simpa using hp.2.1
      have h3 : st3.type_ref = st.type_ref := by simpa using hp.2.2.1
      have h4 : pmap_sim st.presence_map st3.presence_map := by simpa using hp.2.2.2
      exact ⟨by simp [h1], by simp [h2], by simp [h3], by simpa using h4⟩

theorem extract_field_err {env : Env} (ht : ext_tame env) {i : Instruction}
    {st : DecoderState} {e : DecErr} {st2 : DecoderState}
    (h : extract_field env i st = .error (e, st2)) : dict_pushed st st2 := by
  unfold extract_field at h
  simp only [] at h
  rcases he : env.ext i (switch_dictionary i.dictionary st).2 with ⟨e3, stE⟩ | ⟨v2, st3⟩ <;>
    rw [he] at h
  · simp only [Except.error.injEq, Prod.mk.injEq] at h
    rw [← h.2]
    exact dict_pushed_trans (switch_dictionary_pushed _ _)
      (dict_pushed_of_eq (ht.2 _ _ _ _ he))
  · simp at h

theorem read_template_id_pres {env : Env} (ht : ext_tame env) {st : DecoderState}
    {tid : Nat} {st2 : DecoderState} (h : read_template_id env st = .ok (tid, st2)) :
    pres st st2 :=
  ht.1 _ _ _ _ (read_template_id_ok h)

theorem read_template_id_err {env : Env} (ht : ext_tame env) {st : DecoderState}
    {e : DecErr} {st2 : DecoderState} (h : read_template_id env st = .error (e, st2)) :
    st2.dictionary = st.dictionary := by
  unfold read_template_id at h
  rcases he : env.ext env.tid_instruction st with ⟨e3, stE⟩ | ⟨v, st3⟩ <;> rw [he] at h
  · simp only [Except.error.injEq, Prod.mk.injEq] at h
    rw [← h.2]
    exact ht.2 _ _ _ _ he
  · rcases v with _ | val
    · simp only [Except.error.injEq, Prod.mk.injEq] at h
      rw [← h.2]
      exact (ht.1 _ _ _ _ he).2.1
    · rcases val <;> simp only [Except.error.injEq, Prod.mk.injEq] at h <;>
        first
          | (rw [← h.2]; exact (ht.1 _ _ _ _ he).2.1)
          | simp at h

theorem decode_template_id_pres {env : Env} (ht : ext_tame env) {st st2 : DecoderState}
    (h : decode_template_id env st = .ok st2) :
    ∃ tid st1, pres st st1 ∧ st2 = { st1 with template_id := tid :: st1.template_id } := by
  obtain ⟨tid, st1, h1, h2⟩ := decode_template_id_ok h
  exact ⟨tid, st1, read_template_id_pres ht h1, h2⟩

theorem decode_template_id_err {env : Env} (ht : ext_tame env) {st : DecoderState}
    {e : DecErr} {st2 : DecoderState} (h : decode_template_id env st = .error (e, st2)) :
    st2.dictionary = st.dictionary := by
  unfold decode_template_id at h
  rcases he : read_template_id env st with ⟨e3, stE⟩ | ⟨tid, st1⟩ <;> rw [he] at h
  · simp only [Except.error.injEq, Prod.mk.injEq] at h
    rw [← h.2]
    exact read_template_id_err ht he
  · simp at h

theorem decode_presence_map_err {st : DecoderState} {e : DecErr} {st2 : DecoderState}
    (h : decode_presence_map st = .error (e, st2)) : st2 = st := by
  rcases hr : st.reader with _ | ⟨⟨bm, sz⟩, rest⟩ <;> simp [decode_presence_map, hr] at h
  exact h.2.symm

/-- The restore_if at the end of a scope-switching function undoes exactly the
switches at its start. -/
theorem switch_restore_pres (d : Dictionary) (tr : TypeRef) {st stB : DecoderState}
    (hp : pres (switch_type_ref tr (switch_dictionary d st).2).2 stB) :
    pres st (restore_if (switch_dictionary d st).1
      (switch_type_ref tr (switch_dictionary d st).2).1 stB) := by
  obtain ⟨h1, h2, h3, h4⟩ := hp
  by_cases hd : d = Dictionary.inherit <;> by_cases htr : tr = TypeRef.any
  · simp [switch_dictionary, switch_type_ref, hd, htr, restore_if] at h1 h2 h3 h4 ⊢
    exact ⟨h1, h2, h3, h4⟩
  · simp [switch_dictionary, switch_type_ref, hd, htr, restore_if] at h1 h2 h3 h4 ⊢
    exact ⟨by simp [h1], by simp [h2], by simp [h3], by simpa using h4⟩
  · simp [switch_dictionary, switch_type_ref, hd, htr, restore_if] at h1 h2 h3 h4 ⊢
    exact ⟨by simp [h1], by simp [h2], by simp [h3], by simpa using h4⟩
  · simp [switch_dictionary, switch_type_ref, hd, htr, restore_if] at h1 h2 h3 h4 ⊢
    exact ⟨by simp [h1], by simp [h2], by simp [h3], by simpa using h4⟩

theorem decode_field_pres {env : Env} (ht : ext_tame env) {i : Instruction}
    {st st2 : DecoderState} (h : decode_field env i st = .ok st2) : pres st st2 := by
  unfold decode_field at h
  rcases he : extract_field env i st with ⟨e2, stE⟩ | ⟨v, st3⟩ <;> rw [he] at h
  · simp at h
  · simp only [Except.ok.injEq] at h
    subst h
    exact pres_trans (extract_field_pres ht he) (pres_emit _ _)

theorem decode_field_err {env : Env} (ht : ext_tame env) {i : Instruction}
    {st : DecoderState} {e : DecErr} {st2 : DecoderState}
    (h : decode_field env i st = .error (e, st2)) : dict_pushed st st2 := by
  unfold decode_field at h
  rcases he : extract_field env i st with ⟨e2, stE⟩ | ⟨v, st3⟩ <;> rw [he] at h
  · simp only [Except.error.injEq, Prod.mk.injEq] at h
    rw [← h.2]
    exact extract_field_err ht he
  · simp at h

/-- Stack discipline of the dispatcher (spec: push-on-change/pop-on-exit,
push-before-enter/pop-after-exit): a successful call of any decode function
returns the template_id, dictionary and type_ref stacks exactly as it found
them and the presence-map stack up to the top cursor (decode_template_ref_body
on a dynamic reference additionally pops the entries its caller pushed); an
error return leaves at most extra non-Inherit dictionary entries pushed.
Requires extract to be tame in the same sense. -/
theorem decode_pres (env : Env) (ht : ext_tame env) : ∀ f : Nat,
    (∀ is st st2, decode_segment f env is st = .ok st2 → pres st st2) ∧
    (∀ is st e st2, decode_segment f env is st = .error (e, st2) → dict_pushed st st2) ∧
    (∀ i len idx st st2, decode_seq_items f env i len idx st = .ok st2 → pres st st2) ∧
    (∀ i len idx st e st2, decode_seq_items f env i len idx st = .error (e, st2) →
      dict_pushed st st2) ∧
    (∀ i st st2, decode_group_present f env i st = .ok st2 → pres st st2) ∧
    (∀ i st e st2, decode_group_present f env i st = .error (e, st2) → dict_pushed st st2) ∧
    (∀ tpl st st2, decode_template_ref_body f env false tpl st = .ok st2 → pres st st2) ∧
    (∀ tpl st st2, decode_template_ref_body f env true tpl st = .ok st2 →
      st2.template_id = st.template_id.tail ∧ st2.dictionary = st.dictionary ∧
      st2.type_ref = st.type_ref ∧ st2.presence_map = st.presence_map.tail) ∧
    (∀ dyn tpl st e st2, decode_template_ref_body f env dyn tpl st = .error (e, st2) →
      dict_pushed st st2) ∧
    (∀ i st st2, decode_sequence f env i st = .ok st2 → pres st st2) ∧
    (∀ i st e st2, decode_sequence f env i st = .error (e, st2) → dict_pushed st st2) ∧
    (∀ i st st2, decode_group f env i st = .ok st2 → pres st st2) ∧
    (∀ i st e st2, decode_group f env i st = .error (e, st2) → dict_pushed st st2) ∧
    (∀ i st st2, decode_template_ref f env i st = .ok st2 → pres st st2) ∧
    (∀ i st e st2, decode_template_ref f env i st = .error (e, st2) → dict_pushed st st2) ∧
    (∀ i st st2, decode_item f env i st = .ok st2 → pres st st2) ∧
    (∀ i st e st2, decode_item f env i st = .error (e, st2) → dict_pushed st st2) ∧
    (∀ is st st2, decode_instructions f env is st = .ok st2 → pres st st2) ∧
    (∀ is st e st2, decode_instructions f env is st = .error (e, st2) → dict_pushed st st2) := by
  intro f
  induction f with
  | zero =>
    have hseq_e : ∀ i st e st2, decode_sequence 0 env i st = .error (e, st2) →
        dict_pushed st st2 := by
      intro i st e st2 h
      simp only [decode_sequence, Except.error.injEq, Prod.mk.injEq] at h
      rw [← h.2]
      exact dict_pushed_refl st
    have hgrp_e : ∀ i st e st2, decode_group 0 env i st = .error (e, st2) →
        dict_pushed st st2 := by
      intro i st e st2 h
      simp only [decode_group, Except.error.injEq, Prod.mk.injEq] at h
      rw [← h.2]
      exact dict_pushed_refl st
    have htref_e : ∀ i st e st2, decode_template_ref 0 env i st = .error (e, st2) →
        dict_pushed st st2 := by
      intro i st e st2 h
      simp only [decode_template_ref, Except.error.injEq, Prod.mk.injEq] at h
      rw [← h.2]
      exact dict_pushed_refl st
    have hitem_o : ∀ i st st2, decode_item 0 env i st = .ok st2 → pres st st2 := by
      intro i st st2 h
      simp only [decode_item] at h
      split at h
      · simp [decode_sequence] at h
      · simp [decode_group] at h
      · simp [decode_template_ref] at h
      · exact decode_field_pres ht h
    have hitem_e : ∀ i st e st2, decode_item 0 env i st = .error (e, st2) →
        dict_pushed st st2 := by
      intro i st e st2 h
      simp only [decode_item] at h
      split at h
      · exact hseq_e _ _ _ _ h
      · exact hgrp_e _ _ _ _ h
      · exact htref_e _ _ _ _ h
      · exact decode_field_err ht h
    refine ⟨?_, ?_, ?_, ?_, ?_, ?_, ?_, ?_, ?_, ?_, hseq_e, ?_, hgrp_e, ?_, htref_e,
      hitem_o, hitem_e, ?_, ?_⟩
    · intro is st st2 h
      simp [decode_segment] at h
    · intro is st e st2 h
      simp only [decode_segment, Except.error.injEq, Prod.mk.injEq] at h
      rw [← h.2]
      exact dict_pushed_refl st
    · intro i len idx st st2 h
      simp [decode_seq_items] at h
    · intro i len idx st e st2 h
      simp only [decode_seq_items, Except.error.injEq, Prod.mk.injEq] at h
      rw [← h.2]
      exact dict_pushed_refl st
    · intro i st st2 h
      simp [decode_group_present] at h
    · intro i st e st2 h
      simp only [decode_group_present, Except.error.injEq, Prod.mk.injEq] at h
      rw [← h.2]
      exact dict_pushed_refl st
    · intro tpl st st2 h
      simp [decode_template_ref_body] at h
    · intro tpl st st2 h
      simp [decode_template_ref_body] at h
    · intro dyn tpl st e st2 h
      simp only [decode_template_ref_body, Except.error.injEq, Prod.mk.injEq] at h
      rw [← h.2]
      exact dict_pushed_refl st
    · intro i st st2 h
      simp [decode_sequence] at h
    · intro i st st2 h
      simp [decode_group] at h
    · intro i st st2 h
      simp [decode_template_ref] at h
    · intro is st st2 h
      simp [decode_instructions] at h
    · intro is st e st2 h
      simp only [decode_instructions, Except.error.injEq, Prod.mk.injEq] at h
      rw [← h.2]
      exact dict_pushed_refl st
  | succ f IHf =>
    obtain ⟨s1o, s1e, s2o, s2e, s3o, s3e, s4o, s4d, s4e, s5o, s5e, s6o, s6e, s7o, s7e,
      s8o, s8e, s9o, s9e⟩ := IHf
    have B1o : ∀ is st st2, decode_segment (f + 1) env is st = .ok st2 → pres st st2 := by
      intro is st st2 h
      simp only [decode_segment] at h
      split at h
      · simp at h
      · next st1 hpm =>
        split at h
        · simp at h
        · next st3 hdi =>
          simp only [Except.ok.injEq] at h
          subst h
          obtain ⟨hev, hti, hd, htr, bm, sz, hpml⟩ := decode_presence_map_ok hpm
          have hp := s9o _ _ _ hdi
          refine ⟨by simp [hp.1, hti], by simp [hp.2.1, hd], by simp [hp.2.2.1, htr], ?_⟩
          have hsim : pmap_sim st1.presence_map st3.presence_map := hp.2.2.2
          rw [hpml] at hsim
          obtain ⟨b, hb, _, _⟩ := pmap_sim_cons hsim
          simp only [drop_presence_map_presence_map, hb, List.tail_cons]
          exact pmap_sim_refl _
    have B1e : ∀ is st e st2, decode_segment (f + 1) env is st = .error (e, st2) →
        dict_pushed st st2 := by
      intro is st e st2 h
      simp only [decode_segment] at h
      split at h
      · next e2 hpm =>
        rcases e2 with ⟨e3, stE⟩
        simp only [Except.error.injEq, Prod.mk.injEq] at h
        rw [← h.2]
        rw [decode_presence_map_err hpm]
        exact dict_pushed_refl st
      · next st1 hpm =>
        split at h
        · next e2 hdi =>
          rcases e2 with ⟨e3, stE⟩
          simp only [Except.error.injEq, Prod.mk.injEq] at h
          rw [← h.2]
          have hd := (decode_presence_map_ok hpm).2.2.1
          exact dict_pushed_trans (dict_pushed_of_eq hd) (s9e _ _ _ _ hdi)
        · simp at h
    have B2o : ∀ i len idx st st2, decode_seq_items (f + 1) env i len idx st = .ok st2 →
        pres st st2 := by
      intro i len idx st st2 h
      simp only [decode_seq_items] at h
      split at h
      · split at h
        · simp at h
        · next stB hbody =>
          have hp1 : pres (emit st (.start_sequence_item idx)) stB := by
            split at hbody
            · exact s1o _ _ _ hbody
            · exact s9o _ _ _ hbody
          exact pres_trans (pres_emit _ _) (pres_trans hp1
            (pres_trans (pres_emit _ _) (s2o _ _ _ _ _ h)))
      · simp only [Except.ok.injEq] at h
        subst h
        exact pres_refl _
    have B2e : ∀ i len idx st e st2, decode_seq_items (f + 1) env i len idx st
        = .error (e, st2) → dict_pushed st st2 := by
      intro i len idx st e st2 h
      simp only [decode_seq_items] at h
      split at h
      · split at h
        · next e2 hbody =>
          rcases e2 with ⟨e3, stE⟩
          simp only [Except.error.injEq, Prod.mk.injEq] at h
          rw [← h.2]
          have hdp : dict_pushed (emit st (.start_sequence_item idx)) stE := by
            split at hbody
            · exact s1e _ _ _ _ hbody
            · exact s9e _ _ _ _ hbody
          exact dict_pushed_trans (dict_pushed_of_eq rfl) hdp
        · next stB hbody =>
          have hp1 : pres (emit st (.start_sequence_item idx)) stB := by
            split at hbody
            · exact s1o _ _ _ hbody
            · exact s9o _ _ _ hbody
          exact pres_dict_pushed_trans (pres_trans (pres_emit _ _)
            (pres_trans hp1 (pres_emit _ _))) (s2e _ _ _ _ _ _ h)
      · simp at h
    have B3o : ∀ i st st2, decode_group_present (f + 1) env i st = .ok st2 →
        pres st st2 := by
      intro i st st2 h
      simp only [decode_group_present] at h
      split at h
      · simp at h
      · next stB hbody =>
        simp only [Except.ok.injEq] at h
        subst h
        have hp1 : pres (emit (switch_type_ref i.type_ref
            (switch_dictionary i.dictionary st).2).2 (.start_group i.name)) stB := by
          split at hbody
          · exact s1o _ _ _ hbody
          · exact s9o _ _ _ hbody
        exact switch_restore_pres i.dictionary i.type_ref
          (pres_trans (pres_trans (pres_emit _ _) hp1) (pres_emit _ _))
    have B3e : ∀ i st e st2, decode_group_present (f + 1) env i st = .error (e, st2) →
        dict_pushed st st2 := by
      intro i st e st2 h
      simp only [decode_group_present] at h
      split at h
      · next e2 hbody =>
        rcases e2 with ⟨e3, stE⟩
        simp only [Except.error.injEq, Prod.mk.injEq] at h
        rw [← h.2]
        have hdp : dict_pushed (emit (switch_type_ref i.type_ref
            (switch_dictionary i.dictionary st).2).2 (.start_group i.name)) stE := by
          split at hbody
          · exact s1e _ _ _ _ hbody
          · exact s9e _ _ _ _ hbody
        exact dict_pushed_trans (switch_type_ref_pushed _ _ _)
          (dict_pushed_trans (dict_pushed_of_eq rfl) hdp)
      · simp at h
    have B4o : ∀ tpl st st2, decode_template_ref_body (f + 1) env false tpl st = .ok st2 →
        pres st st2 := by
      intro tpl st st2 h
      simp only [decode_template_ref_body] at h
      split at h
      · simp at h
      · next stB hdi =>
        simp only [Except.ok.injEq] at h
        subst h
        have hp := s9o _ _ _ hdi
        have hRes := switch_restore_pres tpl.dictionary tpl.type_ref hp
        simp only [Bool.false_eq_true, if_false]
        exact pres_trans (pres_emit _ _) (pres_trans hRes (pres_emit _ _))
    have B4d : ∀ tpl st st2, decode_template_ref_body (f + 1) env true tpl st = .ok st2 →
        st2.template_id = st.template_id.tail ∧ st2.dictionary = st.dictionary ∧
        st2.type_ref = st.type_ref ∧ st2.presence_map = st.presence_map.tail := by
      intro tpl st st2 h
      simp only [decode_template_ref_body] at h
      split at h
      · simp at h
      · next stB hdi =>
        simp only [Except.ok.injEq] at h
        subst h
        have hp := s9o _ _ _ hdi
        have hRes := switch_restore_pres tpl.dictionary tpl.type_ref hp
        have hM : pres st (emit (restore_if (switch_dictionary tpl.dictionary
            (emit st (.start_template_ref tpl.name true))).1
            (switch_type_ref tpl.type_ref (switch_dictionary tpl.dictionary
              (emit st (.start_template_ref tpl.name true))).2).1 stB) .stop_template_ref) :=
          pres_trans (pres_emit _ _) (pres_trans hRes (pres_emit _ _))
        simp only [if_true]
        have hM1 : stB.template_id = st.template_id := by simpa using hM.1
        refine ⟨by simp [hM1], by simpa using hM.2.1, by simpa using hM.2.2.1, ?_⟩
        simpa using pmap_sim_tail hM.2.2.2
    have B4e : ∀ dyn tpl st e st2, decode_template_ref_body (f + 1) env dyn tpl st
        = .error (e, st2) → dict_pushed st st2 := by
      intro dyn tpl st e st2 h
      simp only [decode_template_ref_body] at h
      split at h
      · next e2 hdi =>
        rcases e2 with ⟨e3, stE⟩
        simp only [Except.error.injEq, Prod.mk.injEq] at h
        rw [← h.2]
        exact dict_pushed_trans
          (dict_pushed_of_eq (rfl :
            (emit st (MsgEvent.start_template_ref tpl.name dyn)).dictionary = st.dictionary))
          (dict_pushed_trans
            (switch_type_ref_pushed tpl.dictionary tpl.type_ref
              (emit st (MsgEvent.start_template_ref tpl.name dyn)))
            (s9e _ _ _ _ hdi))
      · simp at h
    have B5o : ∀ i st st2, decode_sequence (f + 1) env i st = .ok st2 → pres st st2 := by
      intro i st st2 h
      simp only [decode_sequence] at h
      split at h
      · simp at h
      · next lenI restI his =>
        split at h
        · simp at h
        · next stE hex =>
          simp only [Except.ok.injEq] at h
          subst h
          exact switch_restore_pres i.dictionary i.type_ref (extract_field_pres ht hex)
        · next x stE hex =>
          split at h
          · simp at h
          · next stL hloop =>
            simp only [Except.ok.injEq] at h
            subst h
            have hp1 := extract_field_pres ht hex
            have hp2 := s2o _ _ _ _ _ hloop
            exact switch_restore_pres i.dictionary i.type_ref
              (pres_trans hp1 (pres_trans (pres_emit _ _)
                (pres_trans hp2 (pres_emit _ _))))
        all_goals simp at h
    have B5e : ∀ i st e st2, decode_sequence (f + 1) env i st = .error (e, st2) →
        dict_pushed st st2 := by
      intro i st e st2 h
      simp only [decode_sequence] at h
      split at h
      · simp only [Except.error.injEq, Prod.mk.injEq] at h
        rw [← h.2]
        exact switch_type_ref_pushed _ _ _
      · next lenI restI his =>
        split at h
        · next e2 hex =>
          rcases e2 with ⟨e3, stE⟩
          simp only [Except.error.injEq, Prod.mk.injEq] at h
          rw [← h.2]
          exact dict_pushed_trans (switch_type_ref_pushed _ _ _) (extract_field_err ht hex)
        · simp at h
        · next x stE hex =>
          split at h
          · next e2 hloop =>
            rcases e2 with ⟨e3, stL⟩
            simp only [Except.error.injEq, Prod.mk.injEq] at h
            rw [← h.2]
            have hp1 := extract_field_pres ht hex
            exact dict_pushed_trans (switch_type_ref_pushed _ _ _)
              (pres_dict_pushed_trans (pres_trans hp1 (pres_emit _ _))
                (s2e _ _ _ _ _ _ hloop))
          · simp at h
        · next v stE hh1 hh2 =>
          simp only [Except.error.injEq, Prod.mk.injEq] at h
          rw [← h.2]
          refine dict_pushed_trans (switch_type_ref_pushed i.dictionary i.type_ref st)
            (dict_pushed_of_pres ?_)
          first
            | exact extract_field_pres ht hh1
            | exact extract_field_pres ht hh2
    have B6o : ∀ i st st2, decode_group (f + 1) env i st = .ok st2 → pres st st2 := by
      intro i st st2 h
      simp only [decode_group] at h
      split at h
      · split at h
        · next stB hb =>
          simp only [Except.ok.injEq] at h
          subst h
          have := pres_pmap_next_bit st
          rw [hb] at this
          exact this
        · next stB hb =>
          have hpr := pres_pmap_next_bit st
          rw [hb] at hpr
          exact pres_trans hpr (s3o _ _ _ h)
      · exact s3o _ _ _ h
    have B6e : ∀ i st e st2, decode_group (f + 1) env i st = .error (e, st2) →
        dict_pushed st st2 := by
      intro i st e st2 h
      simp only [decode_group] at h
      split at h
      · split at h
        · next stB hb =>
          simp at h
        · next stB hb =>
          have hpr := pres_pmap_next_bit st
          rw [hb] at hpr
          exact pres_dict_pushed_trans hpr (s3e _ _ _ _ h)
      · exact s3e _ _ _ _ h
    have B7o : ∀ i st st2, decode_template_ref (f + 1) env i st = .ok st2 → pres st st2 := by
      intro i st st2 h
      simp only [decode_template_ref] at h
      split at h
      · split at h
        · simp at h
        · next st1 hpm =>
          split at h
          · simp at h
          · next stT htid =>
            split at h
            · simp at h
            · next tid hhd =>
              split at h
              · simp at h
              · next tpl hlk =>
                obtain ⟨hev, hti, hd, htr, bm, sz, hpml⟩ := decode_presence_map_ok hpm
                obtain ⟨tid2, st1b, hp1, hst⟩ := decode_template_id_pres ht htid
                have hb := s4d _ _ _ h
                subst hst
                refine ⟨?_, ?_, ?_, ?_⟩
                · rw [hb.1]
                  simp [hp1.1, hti]
                · rw [hb.2.1]
                  simp [hp1.2.1, hd]
                · rw [hb.2.2.1]
                  simp [hp1.2.2.1, htr]
                · rw [hb.2.2.2]
                  simp only []
                  have hsim : pmap_sim st1.presence_map st1b.presence_map := hp1.2.2.2
                  have := pmap_sim_tail hsim
                  rw [hpml] at this
                  simp only [List.tail_cons] at this
                  rw [this]
                  exact pmap_sim_refl _
      · split at h
        · simp at h
        · next tpl hlk =>
          exact s4o _ _ _ h
    have B7e : ∀ i st e st2, decode_template_ref (f + 1) env i st = .error (e, st2) →
        dict_pushed st st2 := by
      intro i st e st2 h
      simp only [decode_template_ref] at h
      split at h
      · split at h
        · next e2 hpm =>
          rcases e2 with ⟨e3, stE⟩
          simp only [Except.error.injEq, Prod.mk.injEq] at h
          rw [← h.2, decode_presence_map_err hpm]
          exact dict_pushed_refl st
        · next st1 hpm =>
          split at h
          · next e2 htid =>
            rcases e2 with ⟨e3, stE⟩
            simp only [Except.error.injEq, Prod.mk.injEq] at h
            rw [← h.2]
            have h1 := decode_template_id_err ht htid
            have h2 := (decode_presence_map_ok hpm).2.2.1
            exact dict_pushed_of_eq (h1.trans h2)
          · next stT htid =>
            obtain ⟨tid2, st1b, hp1, hst⟩ := decode_template_id_pres ht htid
            have hdT : stT.dictionary = st.dictionary := by
              rw [hst]
              simp [hp1.2.1, (decode_presence_map_ok hpm).2.2.1]
            split at h
            · simp only [Except.error.injEq, Prod.mk.injEq] at h
              rw [← h.2]
              exact dict_pushed_of_eq hdT
            · next tid hhd =>
              split at h
              · simp only [Except.error.injEq, Prod.mk.injEq] at h
                rw [← h.2]
                exact dict_pushed_of_eq hdT
              · next tpl hlk =>
                exact dict_pushed_trans (dict_pushed_of_eq hdT) (s4e _ _ _ _ _ h)
      · split at h
        · simp only [Except.error.injEq, Prod.mk.injEq] at h
          rw [← h.2]
          exact dict_pushed_refl st
        · next tpl hlk =>
          exact s4e _ _ _ _ _ h
    have B8o : ∀ i st st2, decode_item (f + 1) env i st = .ok st2 → pres st st2 := by
      intro i st st2 h
      simp only [decode_item] at h
      split at h
      · exact B5o _ _ _ h
      · exact B6o _ _ _ h
      · exact B7o _ _ _ h
      · exact decode_field_pres ht h
    have B8e : ∀ i st e st2, decode_item (f + 1) env i st = .error (e, st2) →
        dict_pushed st st2 := by
      intro i st e st2 h
      simp only [decode_item] at h
      split at h
      · exact B5e _ _ _ _ h
      · exact B6e _ _ _ _ h
      · exact B7e _ _ _ _ h
      · exact decode_field_err ht h
    have B9o : ∀ is st st2, decode_instructions (f + 1) env is st = .ok st2 →
        pres st st2 := by
      intro is st st2 h
      rcases is with _ | ⟨i, rest⟩
      · simp only [decode_instructions, Except.ok.injEq] at h
        subst h
        exact pres_refl _
      · simp only [decode_instructions] at h
        split at h
        · simp at h
        · next stI hit =>
          exact pres_trans (s8o _ _ _ hit) (s9o _ _ _ h)
    have B9e : ∀ is st e st2, decode_instructions (f + 1) env is st = .error (e, st2) →
        dict_pushed st st2 := by
      intro is st e st2 h
      rcases is with _ | ⟨i, rest⟩
      · simp [decode_instructions] at h
      · simp only [decode_instructions] at h
        split at h
        · next e2 hit =>
          rcases e2 with ⟨e3, stE⟩
          simp only [Except.error.injEq, Prod.mk.injEq] at h
          rw [← h.2]
          exact s8e _ _ _ _ hit
        · next stI hit =>
          exact pres_dict_pushed_trans (s8o _ _ _ hit) (s9e _ _ _ _ h)
    exact ⟨B1o, B1e, B2o, B2e, B3o, B3e, B4o, B4d, B4e, B5o, B5e, B6o, B6e, B7o, B7e,
      B8o, B8e, B9o, B9e⟩

/-- decode_template restores all four context stacks on success (the pushed
presence map and template id are popped at the end). -/
theorem decode_template_pres {env : Env} (ht : ext_tame env) (fuel : Nat)
    {st st2 : DecoderState} (h : decode_template fuel env st = .ok st2) : pres st st2 := by
  obtain ⟨_, _, _, _, _, _, _, _, _, _, _, _, _, _, _, _, _, d9o, _⟩ :=
    decode_pres env ht fuel
  simp only [decode_template] at h
  split at h
  · simp at h
  · next st1 hpm =>
    split at h
    · simp at h
    · next stT htid =>
      split at h
      · simp at h
      · next tid hhd =>
        split at h
        · simp at h
        · next tpl hlk =>
          split at h
          · simp at h
          · next st4 hdi =>
            simp only [Except.ok.injEq] at h
            subst h
            obtain ⟨hev, hti, hd, htr, bm, sz, hpml⟩ := decode_presence_map_ok hpm
            obtain ⟨tid2, st1b, hp1, hst⟩ := decode_template_id_pres ht htid
            have hp4 := d9o _ _ _ hdi
            have hRes := switch_restore_pres tpl.dictionary tpl.type_ref hp4
            have hM := pres_trans (pres_emit stT (.start_template tpl.id tpl.name))
              (pres_trans hRes (pres_emit _ MsgEvent.stop_template))
            subst hst
            have h1 : st4.template_id = tid2 :: st1b.template_id := by simpa using hM.1
            have h2 : (restore_if (switch_dictionary tpl.dictionary
                (emit { st1b with template_id := tid2 :: st1b.template_id }
                  (.start_template tpl.id tpl.name))).1
              (switch_type_ref tpl.type_ref (switch_dictionary tpl.dictionary
                (emit { st1b with template_id := tid2 :: st1b.template_id }
                  (.start_template tpl.id tpl.name))).2).1 st4).dictionary
                = st1b.dictionary := by simpa using hM.2.1
            have h3 : (restore_if (switch_dictionary tpl.dictionary
                (emit { st1b with template_id := tid2 :: st1b.template_id }
                  (.start_template tpl.id tpl.name))).1
              (switch_type_ref tpl.type_ref (switch_dictionary tpl.dictionary
                (emit { st1b with template_id := tid2 :: st1b.template_id }
                  (.start_template tpl.id tpl.name))).2).1 st4).type_ref
                = st1b.type_ref := by simpa using hM.2.2.1
            have h4 : pmap_sim st1b.presence_map st4.presence_map := by
              simpa using hM.2.2.2
            refine ⟨by simp [h1, hp1.1, hti], ?_, ?_, ?_⟩
            · simp only [drop_presence_map_dictionary, drop_template_id_dictionary,
                emit_dictionary]
              rw [h2, hp1.2.1, hd]
            · simp only [drop_presence_map_type_ref, drop_template_id_type_ref,
                emit_type_ref]
              rw [h3, hp1.2.2.1, htr]
            have ht4 : st4.presence_map.tail = st.presence_map := by
              rw [pmap_sim_tail h4, pmap_sim_tail hp1.2.2.2, hpml]
              simp
            simp only [drop_presence_map_presence_map, drop_template_id_presence_map,
              emit_presence_map, restore_if_presence_map, ht4]
            exact pmap_sim_refl _

/-- decode_template on an error return leaves at most extra non-Inherit
dictionary entries pushed. -/
theorem decode_template_err {env : Env} (ht : ext_tame env) (fuel : Nat)
    {st : DecoderState} {e : DecErr} {st2 : DecoderState}
    (h : decode_template fuel env st = .error (e, st2)) : dict_pushed st st2 := by
  obtain ⟨_, _, _, _, _, _, _, _, _, _, _, _, _, _, _, _, _, _, d9e⟩ :=
    decode_pres env ht fuel
  simp only [decode_template] at h
  split at h
  · next e2 hpm =>
    rcases e2 with ⟨e3, stE⟩
    simp only [Except.error.injEq, Prod.mk.injEq] at h
    rw [← h.2, decode_presence_map_err hpm]
    exact dict_pushed_refl st
  · next st1 hpm =>
    split at h
    · next e2 htid =>
      rcases e2 with ⟨e3, stE⟩
      simp only [Except.error.injEq, Prod.mk.injEq] at h
      rw [← h.2]
      exact dict_pushed_of_eq
        ((decode_template_id_err ht htid).trans (decode_presence_map_ok hpm).2.2.1)
    · next stT htid =>
      obtain ⟨tid2, st1b, hp1, hst⟩ := decode_template_id_pres ht htid
      have hdT : stT.dictionary = st.dictionary := by
        rw [hst]
        simp [hp1.2.1, (decode_presence_map_ok hpm).2.2.1]
      split at h
      · simp only [Except.error.injEq, Prod.mk.injEq] at h
        rw [← h.2]
        exact dict_pushed_of_eq hdT
      · next tid hhd =>
        split at h
        · simp only [Except.error.injEq, Prod.mk.injEq] at h
          rw [← h.2]
          exact dict_pushed_of_eq hdT
        · next tpl hlk =>
          split at h
          · next e2 hdi =>
            rcases e2 with ⟨e3, stE⟩
            simp only [Except.error.injEq, Prod.mk.injEq] at h
            rw [← h.2]
            refine dict_pushed_trans (dict_pushed_of_eq hdT) (dict_pushed_trans
              (dict_pushed_of_eq (rfl :
                (emit stT (MsgEvent.start_template tpl.id tpl.name)).dictionary
                  = stT.dictionary))
              (dict_pushed_trans
                (switch_type_ref_pushed tpl.dictionary tpl.type_ref
                  (emit stT (MsgEvent.start_template tpl.id tpl.name)))
                (d9e _ _ _ _ hdi)))
          · simp at h

/-- The dictionary-stack invariant of C10: the stack never holds Inherit and is
never empty. -/
def dict_inv (st : DecoderState) : Prop :=
  Dictionary.inherit ∉ st.dictionary ∧ st.dictionary ≠ []

theorem dict_inv_of_pushed {a b : DecoderState} (hp : dict_pushed a b)
    (hi : dict_inv a) : dict_inv b := by
  obtain ⟨pushed, he, hn⟩ := hp
  constructor
  · rw [he]
    simp only [List.mem_append]
    rintro (hc | hc)
    · exact hn hc
    · exact hi.1 hc
  · rw [he]
    intro hc
    exact hi.2 (by simpa using (List.append_eq_nil.mp hc).2)

/-- C10: the dictionary context stack never exposes Inherit to make_dict_type,
so its unreachable!() arm is never executed during any decode: (1) the initial
state satisfies the invariant (stack = [Global], nonempty, no Inherit);
(2) switch_dictionary, the only push, preserves it (it filters Inherit);
(3)+(4) decode_template preserves it on success and on error returns (given
tame extract); (5) under the invariant make_dict_type never takes the
Inherit/unreachable arm. -/
theorem claim10_no_inherit_unreachable :
    (∀ reader, dict_inv (DecoderState.new reader)) ∧
    (∀ d st, dict_inv st → dict_inv ((switch_dictionary d st).2)) ∧
    (∀ env fuel st st2, ext_tame env → dict_inv st →
      decode_template fuel env st = .ok st2 → dict_inv st2) ∧
    (∀ env fuel st e st2, ext_tame env → dict_inv st →
      decode_template fuel env st = .error (e, st2) → dict_inv st2) ∧
    (∀ st, dict_inv st → make_dict_type st ≠ .error .inheritUnreachable) := by
  refine ⟨?_, ?_, ?_, ?_, ?_⟩
  · intro reader
    exact ⟨by simp [DecoderState.new], by simp [DecoderState.new]⟩
  · intro d st hi
    unfold switch_dictionary
    split
    · next hne =>
      constructor
      · intro hc
        rcases List.mem_cons.mp hc with hc | hc
        · exact hne hc.symm
        · exact hi.1 hc
      · simp
    · exact hi
  · intro env fuel st st2 ht hi h
    have he := (decode_template_pres ht fuel h).2.1
    show Dictionary.inherit ∉ st2.dictionary ∧ st2.dictionary ≠ []
    rw [he]
    exact hi
  · intro env fuel st e st2 ht hi h
    exact dict_inv_of_pushed (decode_template_err ht fuel h) hi
  · intro st hi hc
    rcases hd : st.dictionary with _ | ⟨d, rest⟩
    · exact hi.2 hd
    · rcases d
      case inherit => exact hi.1 (by rw [hd]; exact List.mem_cons_self _ _)
      case global => simp [make_dict_type, hd] at hc
      case template =>
        rcases htid : st.template_id with _ | ⟨t0, ts⟩ <;>
          simp [make_dict_type, hd, htid] at hc
      case type_ =>
        rcases htr : st.type_ref with _ | ⟨t0, ts⟩
        · simp [make_dict_type, hd, htr] at hc
        · rcases t0 <;> simp [make_dict_type, hd, htr] at hc
      case userDefined nm => simp [make_dict_type, hd] at hc

/-- Witness for C10 at the concrete initial state. -/
theorem claim10_no_inherit_unreachable_witness :
    dict_inv (DecoderState.new []) ∧
    make_dict_type (DecoderState.new []) ≠ .error .inheritUnreachable := by
  have h := claim10_no_inherit_unreachable
  exact ⟨⟨by decide, by decide⟩, h.2.2.2.2 (DecoderState.new []) ⟨by decide, by decide⟩⟩

/-- C8: decode_group.  (a) An optional group consumes exactly one bit of the
enclosing presence map and, when that bit is false, returns without emitting
anything (the only state change is the advanced cursor).  (b) A mandatory
group consumes no bit of the enclosing map: it passes the state unchanged to
the present-group path.  (c) An optional group whose bit is true enters the
present path with just that bit consumed.  (d) When the group is present,
start_group and stop_group bracket the children's events.  (e)/(f) The
children are decoded under a freshly read presence map (decode_segment)
exactly when the group's has_pmap cell holds true, and under the enclosing map
(decode_instructions) otherwise.  (g) decode_segment itself reads a fresh map
from the reader, pushes it for its body, and pops it on success. -/
theorem claim8_decode_group (env : Env) (f : Nat) (i : Instruction) (st : DecoderState)
    (hm : ext_mono env) (_hvt : i.value_type = .group) :
    (∀ pm rest, i.is_optional = true → st.presence_map = pm :: rest →
      pm.next_bit_set.1 = false →
      decode_group (f + 1) env i st
        = .ok { st with presence_map := pm.next_bit_set.2 :: rest } ∧
      ({ st with presence_map := pm.next_bit_set.2 :: rest } : DecoderState).events
        = st.events ∧
      pm.next_bit_set.2.cursor = pm.cursor + 1) ∧
    (i.is_optional = false →
      decode_group (f + 1) env i st = decode_group_present f env i st) ∧
    (i.is_optional = true → (pmap_next_bit_set st).1 = true →
      decode_group (f + 1) env i st
        = decode_group_present f env i ((pmap_next_bit_set st).2)) ∧
    (∀ st2, decode_group_present (f + 1) env i st = .ok st2 →
      ∃ inner, st2.events
        = st.events ++ [MsgEvent.start_group i.name] ++ inner ++ [MsgEvent.stop_group]) ∧
    (i.has_pmap.getD false = true →
      decode_group_present (f + 1) env i st =
        match decode_segment f env i.instructions
            (emit (switch_type_ref i.type_ref (switch_dictionary i.dictionary st).2).2
              (.start_group i.name)) with
        | .error e => .error e
        | .ok s => .ok (restore_if (switch_dictionary i.dictionary st).1
            (switch_type_ref i.type_ref (switch_dictionary i.dictionary st).2).1
            (emit s .stop_group))) ∧
    (i.has_pmap.getD false = false →
      decode_group_present (f + 1) env i st =
        match decode_instructions f env i.instructions
            (emit (switch_type_ref i.type_ref (switch_dictionary i.dictionary st).2).2
              (.start_group i.name)) with
        | .error e => .error e
        | .ok s => .ok (restore_if (switch_dictionary i.dictionary st).1
            (switch_type_ref i.type_ref (switch_dictionary i.dictionary st).2).1
            (emit s .stop_group))) ∧
    (∀ bm sz r, st.reader = (bm, sz) :: r →
      decode_presence_map st
        = .ok { st with reader := r, presence_map := PresenceMap.new bm sz :: st.presence_map }) ∧
    (∀ is st1, decode_presence_map st = .ok st1 →
      decode_segment (f + 1) env is st =
        match decode_instructions f env is st1 with
        | .error e => .error e
        | .ok s => .ok (drop_presence_map s)) := by
  refine ⟨?_, ?_, ?_, ?_, ?_, ?_, ?_, ?_⟩
  · intro pm rest hopt hpml hbit
    have hb : pmap_next_bit_set st
        = (false, { st with presence_map := pm.next_bit_set.2 :: rest }) := by
      simp [pmap_next_bit_set, hpml, hbit]
    refine ⟨?_, by simp, by simp [PresenceMap.next_bit_set]⟩
    simp only [decode_group, hopt, if_true, hb]
  · intro hopt
    simp only [decode_group, hopt, Bool.false_eq_true, if_false]
  · intro hopt hbit
    rcases hb : pmap_next_bit_set st with ⟨b, stB⟩
    rw [hb] at hbit
    simp only at hbit
    subst hbit
    simp only [decode_group, hopt, if_true, hb]
  · intro st2 h
    simp only [decode_group_present] at h
    split at h
    · simp at h
    · next stB hbody =>
      simp only [Except.ok.injEq] at h
      subst h
      have h2 : ev_ext (emit (switch_type_ref i.type_ref
          (switch_dictionary i.dictionary st).2).2 (.start_group i.name)) stB := by
        split at hbody
        · exact (decode_mono env hm f).1 _ _ _ hbody
        · exact (decode_mono env hm f).2.2.2.2.2.2.2.2 _ _ _ hbody
      obtain ⟨inner, hin⟩ := h2
      refine ⟨inner, ?_⟩
      simp [hin]
  · intro hp
    simp only [decode_group_present, hp, if_true]
  · intro hp
    simp only [decode_group_present, hp, Bool.false_eq_true, if_false]
  · intro bm sz r hr
    simp [decode_presence_map, hr]
  · intro is st1 hpm
    simp only [decode_segment, hpm]

/-- ext_mono holds for the concrete extract used by the witnesses. -/
theorem c2_env_mono : ext_mono c2_env := by
  intro i st v st2 hok
  simp [c2_env] at hok
  rw [← hok.2]
  exact ev_ext_refl st

/-- Witness for C8 at a concrete input: an optional group over a presence map
whose next bit is false is skipped, consuming exactly that one bit. -/
theorem claim8_decode_group_witness :
    decode_group 5 c2_env
      (.mk 1 "g" .group .optional .none Option.none [] .inherit "" .any (some false))
      { DecoderState.new [] with presence_map := [⟨0, 1, 0⟩] }
    = .ok { DecoderState.new [] with presence_map := [⟨0, 1, 1⟩] } := by
  have h := claim8_decode_group c2_env 4
    (.mk 1 "g" .group .optional .none Option.none [] .inherit "" .any (some false))
    { DecoderState.new [] with presence_map := [⟨0, 1, 0⟩] }
    c2_env_mono (by rfl)
  exact (h.1 ⟨0, 1, 0⟩ [] (by rfl) (by rfl) (by decide)).1

/-- ext_tame holds for the concrete extract used by the witnesses. -/
theorem c2_env_tame : ext_tame c2_env := by
  constructor
  · intro i st v st2 hok
    simp [c2_env] at hok
    rw [← hok.2]
    exact pres_refl st
  · intro i st e st2 hok
    simp [c2_env] at hok

/-- C9: decode_template_ref.  (a) A static reference (non-empty name) whose
name is unknown is a decode error, with no state change.  (b) A resolvable
static reference dispatches to the shared body with the state untouched: no
presence map and no template id are pushed.  (c) A successful static reference
leaves the template_id, dictionary and type_ref stacks exactly as found and
the presence-map stack at the same shape (only the top cursor may advance: the
children read the ENCLOSING map).  (d) A dynamic reference (empty name) first
reads and pushes a fresh presence map, then reads and pushes a template id,
and resolves by id; an unknown id is a decode error.  (e) A successful dynamic
reference pops both again: all four stacks, the presence-map stack included,
return exactly (the children consumed the fresh map, not the enclosing one). -/
theorem claim9_decode_template_ref (env : Env) (f : Nat) (i : Instruction)
    (st : DecoderState) (ht : ext_tame env)
    (_hvt : i.value_type = .templateReference) :
    (¬ i.name = "" → templates_by_name env.templates i.name = Option.none →
      decode_template_ref (f + 1) env i st
        = .error (.dynamic ("Unknown template: " ++ i.name), st)) ∧
    (∀ tpl, ¬ i.name = "" → templates_by_name env.templates i.name = some tpl →
      decode_template_ref (f + 1) env i st
        = decode_template_ref_body f env false tpl st) ∧
    (∀ st2, ¬ i.name = "" → decode_template_ref (f + 1) env i st = .ok st2 →
      st2.template_id = st.template_id ∧ st2.dictionary = st.dictionary ∧
      st2.type_ref = st.type_ref ∧ pmap_sim st.presence_map st2.presence_map) ∧
    (∀ bm sz r tid st1b, i.name = "" →
      st.reader = (bm, sz) :: r →
      read_template_id env
        { st with reader := r, presence_map := PresenceMap.new bm sz :: st.presence_map }
        = .ok (tid, st1b) →
      decode_template_ref (f + 1) env i st
        = match templates_by_id env.templates tid with
          | Option.none => .error (.dynamic ("Unknown template id: " ++ toString tid),
              { st1b with template_id := tid :: st1b.template_id })
          | some tpl => decode_template_ref_body f env true tpl
              { st1b with template_id := tid :: st1b.template_id }) ∧
    (∀ st2, i.name = "" → decode_template_ref (f + 1) env i st = .ok st2 →
      st2.template_id = st.template_id ∧ st2.dictionary = st.dictionary ∧
      st2.type_ref = st.type_ref ∧ st2.presence_map = st.presence_map) := by
  refine ⟨?_, ?_, ?_, ?_, ?_⟩
  · intro hn hlk
    have hc : (i.name == "") = false := by simpa using hn
    simp only [decode_template_ref, hc, Bool.false_eq_true, if_false, hlk]
  · intro tpl hn hlk
    have hc : (i.name == "") = false := by simpa using hn
    simp only [decode_template_ref, hc, Bool.false_eq_true, if_false, hlk]
  · intro st2 hn h
    have hc : (i.name == "") = false := by simpa using hn
    simp only [decode_template_ref, hc, Bool.false_eq_true, if_false] at h
    split at h
    · simp at h
    · next tpl hlk =>
      obtain ⟨_, _, _, _, _, _, s4o, _, _, _, _, _, _, _, _, _, _, _, _⟩ :=
        decode_pres env ht f
      have hp := s4o _ _ _ h
      exact ⟨hp.1, hp.2.1, hp.2.2.1, hp.2.2.2⟩
  · intro bm sz r tid st1b hn hr hrt
    have hc : (i.name == "") = true := by simp [hn]
    have hpm : decode_presence_map st
        = .ok { st with reader := r, presence_map := PresenceMap.new bm sz :: st.presence_map } := by
      simp [decode_presence_map, hr]
    have htid : decode_template_id env
        { st with reader := r, presence_map := PresenceMap.new bm sz :: st.presence_map }
        = .ok { st1b with template_id := tid :: st1b.template_id } := by
      simp [decode_template_id, hrt]
    simp only [decode_template_ref, hc, if_true, hpm, htid]
    simp
  · intro st2 hn h
    have hc : (i.name == "") = true := by simp [hn]
    simp only [decode_template_ref, hc, if_true] at h
    split at h
    · simp at h
    · next st1 hpm =>
      split at h
      · simp at h
      · next stT htid =>
        split at h
        · simp at h
        · next tid hhd =>
          split at h
          · simp at h
          · next tpl hlk =>
            obtain ⟨_, _, _, _, _, _, _, s4d, _, _, _, _, _, _, _, _, _, _, _⟩ :=
              decode_pres env ht f
            obtain ⟨hev, hti, hd, htr2, bm, sz, hpml⟩ := decode_presence_map_ok hpm
            obtain ⟨tid2, st1b, hp1, hst⟩ := decode_template_id_pres ht htid
            have hb := s4d _ _ _ h
            subst hst
            refine ⟨?_, ?_, ?_, ?_⟩
            · rw [hb.1]
              simp [hp1.1, hti]
            · rw [hb.2.1]
              simp [hp1.2.1, hd]
            · rw [hb.2.2.1]
              simp [hp1.2.2.1, htr2]
            · rw [hb.2.2.2]
              simp only [List.tail_cons]
              have h1 : st1b.presence_map.tail = st1.presence_map.tail :=
                pmap_sim_tail hp1.2.2.2
              rw [h1, hpml]
              simp

/-- Witness for C9 at a concrete input: an unresolvable static reference is a
decode error and leaves the state unchanged. -/
theorem claim9_decode_template_ref_witness :
    decode_template_ref 5 c2_env
      (.mk 3 "X" .templateReference .mandatory .none Option.none [] .inherit "" .any
        Option.none)
      (DecoderState.new [])
    = .error (.dynamic ("Unknown template: " ++ "X"), DecoderState.new []) := by
  have h := claim9_decode_template_ref c2_env 4
    (.mk 3 "X" .templateReference .mandatory .none Option.none [] .inherit "" .any
      Option.none)
    (DecoderState.new []) c2_env_tame (by rfl)
  exact h.1 (by decide) (by rfl)

/-- Event decomposition of the sequence-element loop: when decode_seq_items
succeeds, the appended events split into one chunk per element, each chunk
bracketed by start_sequence_item (with the right index) and
stop_sequence_item. -/
theorem seq_items_events (env : Env) (hm : ext_mono env) :
    ∀ (g : Nat) (i : Instruction) (n idx : Nat) (st st2 : DecoderState),
    decode_seq_items g env i n idx st = .ok st2 →
    ∃ chunks : List (List MsgEvent), chunks.length = n - idx ∧
      st2.events = st.events ++ chunks.flatten ∧
      ∀ k (hk : k < chunks.length), ∃ inner,
        chunks.get ⟨k, hk⟩
          = [MsgEvent.start_sequence_item (idx + k)] ++ inner
            ++ [MsgEvent.stop_sequence_item] := by
  intro g
  induction g with
  | zero =>
    intro i n idx st st2 h
    simp [decode_seq_items] at h
  | succ g IHg =>
    intro i n idx st st2 h
    simp only [decode_seq_items] at h
    split at h
    · next hlt =>
      split at h
      · simp at h
      · next stB hbody =>
        have hmono : ev_ext (emit st (.start_sequence_item idx)) stB := by
          split at hbody
          · exact (decode_mono env hm g).1 _ _ _ hbody
          · exact (decode_mono env hm g).2.2.2.2.2.2.2.2 _ _ _ hbody
        obtain ⟨inner, hinner⟩ := hmono
        obtain ⟨chunks, hlen, hev, hch⟩ := IHg _ _ _ _ _ h
        refine ⟨([MsgEvent.start_sequence_item idx] ++ inner
          ++ [MsgEvent.stop_sequence_item]) :: chunks, ?_, ?_, ?_⟩
        · simp [hlen]
          omega
        · rw [hev]
          simp [hinner]
        · intro k hk
          rcases k with _ | k
          · exact ⟨inner, by simp⟩
          · obtain ⟨inner2, hin2⟩ := hch k (by simpa using hk)
            refine ⟨inner2, ?_⟩
            simp only [List.get_cons_succ, hin2]
            have : idx + 1 + k = idx + (k + 1) := by omega
            rw [this]
    · next hge =>
      simp only [Except.ok.injEq] at h
      subst h
      refine ⟨[], by simp; omega, by simp, by simp⟩

/-- C7: decode_sequence.  With the length child extracted under the switched
scopes: (1) result None (optional length absent) succeeds immediately and
nothing is emitted for the body; (2) any non-UInt32 value kind is the decode
error "Length field must be UInt32"; (3) a UInt32 length n runs the element
loop after emitting start_sequence and emits stop_sequence after it; (4) on
success the emitted events decompose as start_sequence, then for each index k
below n a chunk bracketed by start_sequence_item k / stop_sequence_item, then
stop_sequence; (5)/(6) each element decodes the body instructions (the tail
after the length child) under a freshly read per-element presence map
(decode_segment) exactly when the sequence's has_pmap cell holds true, and
under the enclosing map (decode_instructions) otherwise. -/
theorem claim7_decode_sequence (env : Env) (f : Nat) (i : Instruction)
    (st : DecoderState) (lenI : Instruction) (body : List Instruction)
    (hm : ext_mono env) (his : i.instructions = lenI :: body) :
    (∀ st1, extract_field env lenI
        (switch_type_ref i.type_ref (switch_dictionary i.dictionary st).2).2
        = .ok (Option.none, st1) →
      decode_sequence (f + 1) env i st
        = .ok (restore_if (switch_dictionary i.dictionary st).1
            (switch_type_ref i.type_ref (switch_dictionary i.dictionary st).2).1 st1) ∧
      (restore_if (switch_dictionary i.dictionary st).1
        (switch_type_ref i.type_ref (switch_dictionary i.dictionary st).2).1 st1).events
        = st1.events) ∧
    (∀ v st1, extract_field env lenI
        (switch_type_ref i.type_ref (switch_dictionary i.dictionary st).2).2
        = .ok (some v, st1) → (∀ n, ¬ v = Value.uInt32 n) →
      decode_sequence (f + 1) env i st
        = .error (.dynamic ("Length field must be UInt32"), st1)) ∧
    (∀ n st1, extract_field env lenI
        (switch_type_ref i.type_ref (switch_dictionary i.dictionary st).2).2
        = .ok (some (.uInt32 n), st1) →
      decode_sequence (f + 1) env i st
        = match decode_seq_items f env i n 0
            (emit st1 (.start_sequence i.id i.name n)) with
          | .error e => .error e
          | .ok s => .ok (restore_if (switch_dictionary i.dictionary st).1
              (switch_type_ref i.type_ref (switch_dictionary i.dictionary st).2).1
              (emit s .stop_sequence))) ∧
    (∀ n st1 st2, extract_field env lenI
        (switch_type_ref i.type_ref (switch_dictionary i.dictionary st).2).2
        = .ok (some (.uInt32 n), st1) →
      decode_sequence (f + 1) env i st = .ok st2 →
      ∃ chunks : List (List MsgEvent), chunks.length = n ∧
        st2.events = st1.events ++ [MsgEvent.start_sequence i.id i.name n]
          ++ chunks.flatten ++ [MsgEvent.stop_sequence] ∧
        ∀ k (hk : k < chunks.length), ∃ inner,
          chunks.get ⟨k, hk⟩ = [MsgEvent.start_sequence_item k] ++ inner
            ++ [MsgEvent.stop_sequence_item]) ∧
    (∀ g n idx stx, i.has_pmap.getD false = true → idx < n →
      decode_seq_items (g + 1) env i n idx stx
        = match decode_segment g env i.instructions.tail
            (emit stx (.start_sequence_item idx)) with
          | .error e => .error e
          | .ok s => decode_seq_items g env i n (idx + 1) (emit s .stop_sequence_item)) ∧
    (∀ g n idx stx, i.has_pmap.getD false = false → idx < n →
      decode_seq_items (g + 1) env i n idx stx
        = match decode_instructions g env i.instructions.tail
            (emit stx (.start_sequence_item idx)) with
          | .error e => .error e
          | .ok s => decode_seq_items g env i n (idx + 1) (emit s .stop_sequence_item)) := by
  have hstep3 : ∀ n st1, extract_field env lenI
      (switch_type_ref i.type_ref (switch_dictionary i.dictionary st).2).2
      = .ok (some (.uInt32 n), st1) →
      decode_sequence (f + 1) env i st
        = match decode_seq_items f env i n 0
            (emit st1 (.start_sequence i.id i.name n)) with
          | .error e => .error e
          | .ok s => .ok (restore_if (switch_dictionary i.dictionary st).1
              (switch_type_ref i.type_ref (switch_dictionary i.dictionary st).2).1
              (emit s .stop_sequence)) := by
    intro n st1 hex
    simp only [decode_sequence, his, hex]
  refine ⟨?_, ?_, hstep3, ?_, ?_, ?_⟩
  · intro st1 hex
    refine ⟨?_, by simp⟩
    simp only [decode_sequence, his, hex]
  · intro v st1 hex hnv
    rcases v with x | x | x | x | ⟨ex, mt⟩ | s | s | bs
    · exact absurd rfl (hnv x)
    all_goals simp only [decode_sequence, his, hex]
  · intro n st1 st2 hex h
    rw [hstep3 n st1 hex] at h
    split at h
    · simp at h
    · next stL hloop =>
      simp only [Except.ok.injEq] at h
      subst h
      obtain ⟨chunks, hlen, hev, hch⟩ := seq_items_events env hm f i n 0 _ _ hloop
      refine ⟨chunks, by simpa using hlen, ?_, ?_⟩
      · rw [restore_if_events, emit_events, hev]
        simp
      · intro k hk
        obtain ⟨inner, hin⟩ := hch k hk
        exact ⟨inner, by simpa using hin⟩
  · intro g n idx stx hp hlt
    simp only [decode_seq_items, if_pos hlt, hp, if_true]
  · intro g n idx stx hp hlt
    simp only [decode_seq_items, if_pos hlt, hp, Bool.false_eq_true, if_false]

/-- A concrete environment whose extract yields an Int32, for the C7 witness. -/
def c7_env : Env :=
  { templates := []
    tid_instruction := template_id_instruction
    ext := fun _ st => .ok (some (.int32 7), st) }

/-- ext_mono for the C7 witness environment. -/
theorem c7_env_mono : ext_mono c7_env := by
  intro i st v st2 hok
  simp [c7_env] at hok
  rw [← hok.2]
  exact ev_ext_refl st

/-- Witness for C7 at a concrete input: a length child that extracts to an
Int32 (not UInt32) makes decode_sequence fail with the length-kind decode
error, the state carrying the already-extracted position. -/
theorem claim7_decode_sequence_witness :
    decode_sequence 5 c7_env
      (.mk 4 "s" .sequence .mandatory .none Option.none
        [.mk 5 "len" .uInt32 .mandatory .none Option.none [] .inherit "" .any Option.none]
        .inherit "" .any (some false))
      (DecoderState.new [])
    = .error (.dynamic ("Length field must be UInt32"), DecoderState.new []) := by
  have h := claim7_decode_sequence c7_env 4
    (.mk 4 "s" .sequence .mandatory .none Option.none
      [.mk 5 "len" .uInt32 .mandatory .none Option.none [] .inherit "" .any Option.none]
      .inherit "" .any (some false))
    (DecoderState.new [])
    (.mk 5 "len" .uInt32 .mandatory .none Option.none [] .inherit "" .any Option.none)
    [] c7_env_mono (by rfl)
  exact h.2.1 (.int32 7) (DecoderState.new []) (by rfl) (by intro n hcon; simp at hcon)

end Fast
